import Mathlib

/-!
Verification of the financial reconciliation engine of a freelance team
tracker.  The engine is the function calculate_project_finances
(src/app.py, lines 118-165): it filters three record collections to one
project, totals the filtered amounts, derives the profit, and builds a
per-member account dictionary.

Modelling choices, each tied to the source:
* Spreadsheet cell values are modelled by PyVal: a value on which the
  Python float() coercion succeeds (returning a rational), or a value on
  which float() raises (a non-numeric string and similar).  Amounts are
  rationals, which carry the exact additive structure of the decimal
  amounts the code manipulates.
* A record field that may be absent from a row dictionary is an Option;
  for example expense.get("Amount", 0) becomes amount.getD (PyVal.num 0)
  and expense.get("Paid By") becomes an Option String.
* The Python dict member_data is an association list built with
  insert-or-overwrite semantics; "paid_by in member_data" becomes a
  boolean key test.
* A Python exception (float() raising ValueError) is Except.error; the
  engine therefore returns Except String FinanceSummary, and each loop is
  a structural recursion in the Except monad mirroring the evaluation
  order of the source.
-/

namespace App

/-- A spreadsheet cell value as seen by the engine: either a value that the
Python float() coercion accepts (numbers and numeric strings), carried as
the rational it denotes, or a value on which float() raises (non-numeric
text), carried with its text. -/
inductive PyVal where
  | num (q : ℚ)
  | bad (s : String)
deriving DecidableEq, Repr

/-- Python float(v): returns the number, or raises for non-numeric input. -/
def pyFloat : PyVal → Except String ℚ
  | .num q => .ok q
  | .bad s => .error s

/-- float(record.get("Amount", 0)): a missing field defaults to 0 before
the coercion (src/app.py lines 124, 125, 136, 142, 148). -/
def getAmount (a : Option PyVal) : Except String ℚ :=
  pyFloat (a.getD (PyVal.num 0))

/-- A row of the Expenses sheet, restricted to the fields the engine
reads: Project, "Paid By", Amount (src/app.py lines 120, 135, 136). -/
structure ExpenseRec where
  project : Option String
  paid_by : Option String
  amount : Option PyVal
deriving DecidableEq, Repr

/-- A row of the Reimbursements sheet, restricted to the fields present in
the row: Project, From, To, Amount.  The engine reads Project, To and
Amount only (src/app.py lines 121, 141, 142); the From column is carried
so that its irrelevance can be stated. -/
structure ReimbRec where
  project : Option String
  source : Option String
  to_person : Option String
  amount : Option PyVal
deriving DecidableEq, Repr

/-- A row of the ProfitSplits sheet: Project, Member, Percentage
(src/app.py lines 122, 147, 148). -/
structure SplitRec where
  project : Option String
  member : Option String
  percentage : Option PyVal
deriving DecidableEq, Repr

/-- The per-member record member_data[m] (src/app.py lines 132, 138, 144,
151, 152, 158).  In the source the balance key is only added by the final
loop; here it is present from the start with value 0 and is written by
setBalances. -/
structure MemberAccount where
  expenses_paid : ℚ
  reimbursed : ℚ
  profit_share : ℚ
  profit_percentage : ℚ
  balance : ℚ
deriving DecidableEq, Repr

/-- member_data[member] = {"expenses_paid": 0, "reimbursed": 0,
"profit_share": 0, "profit_percentage": 0} (src/app.py line 132). -/
def zeroAccount : MemberAccount :=
  { expenses_paid := 0, reimbursed := 0, profit_share := 0
    profit_percentage := 0, balance := 0 }

/-- The Python dict member_data: an insertion-ordered association list
from member name to account. -/
abbrev MemberDict := List (String × MemberAccount)

/-- The key test "k in member_data".  A None key (missing column) is never
a dict key, so it tests false. -/
def hasKey (k : Option String) (d : MemberDict) : Bool :=
  match k with
  | some s => d.any (fun p => p.1 = s)
  | none => false

/-- Dict read member_data[k]: first entry with the given key. -/
def dlookup (k : String) : MemberDict → Option MemberAccount
  | [] => none
  | p :: rest => if p.1 = k then some p.2 else dlookup k rest

/-- Dict write member_data[k] = f (member_data[k]): rewrite the entry
with key k in place.  On the dicts the engine builds, keys are distinct,
so this is the Python in-place update. -/
def dupdate (k : String) (f : MemberAccount → MemberAccount) : MemberDict → MemberDict
  | [] => []
  | p :: rest => if p.1 = k then (p.1, f p.2) :: dupdate k f rest
                 else p :: dupdate k f rest

/-- Dict write member_data[k] = v on a possibly fresh key: overwrite in
place when k is present, append otherwise (Python dict assignment). -/
def dinsert (k : String) (v : MemberAccount) (d : MemberDict) : MemberDict :=
  if hasKey (some k) d then dupdate k (fun _ => v) d else d ++ [(k, v)]

/-- The initialisation loop: for member in team_members:
member_data[member] = zero account (src/app.py lines 131-132). -/
def initMembers (team_members : List String) : MemberDict :=
  team_members.foldl (fun d m => dinsert m zeroAccount d) []

/-- total = sum(float(r.get("Amount", 0)) for r in rows), evaluated left
to right, raising at the first non-numeric amount (src/app.py lines
124-125). -/
def sumAmounts : List (Option PyVal) → ℚ → Except String ℚ
  | [], acc => .ok acc
  | a :: rest, acc =>
    match getAmount a with
    | .error e => .error e
    | .ok q => sumAmounts rest (acc + q)

/-- The expenses loop (src/app.py lines 134-138): parse the amount (which
can raise), then add it to expenses_paid of the paying member when that
member is a dict key. -/
def applyExpenses : List ExpenseRec → MemberDict → Except String MemberDict
  | [], d => .ok d
  | e :: rest, d =>
    match getAmount e.amount with
    | .error msg => .error msg
    | .ok amount =>
      let d' := if hasKey e.paid_by d then
          dupdate (e.paid_by.getD "") (fun a =>
            { a with expenses_paid := a.expenses_paid + amount }) d
        else d
      applyExpenses rest d'

/-- The reimbursements loop (src/app.py lines 140-144): add the amount to
reimbursed of the recipient when the recipient is a dict key.  The From
column is never read. -/
def applyReimbs : List ReimbRec → MemberDict → Except String MemberDict
  | [], d => .ok d
  | r :: rest, d =>
    match getAmount r.amount with
    | .error msg => .error msg
    | .ok amount =>
      let d' := if hasKey r.to_person d then
          dupdate (r.to_person.getD "") (fun a =>
            { a with reimbursed := a.reimbursed + amount }) d
        else d
      applyReimbs rest d'

/-- The profit-splits loop (src/app.py lines 146-152): overwrite (not
accumulate) profit_share and profit_percentage of the named member when
that member is a dict key. -/
def applySplits (profit : ℚ) : List SplitRec → MemberDict → Except String MemberDict
  | [], d => .ok d
  | s :: rest, d =>
    match getAmount s.percentage with
    | .error msg => .error msg
    | .ok percentage =>
      let profit_amount := (percentage / 100) * profit
      let d' := if hasKey s.member d then
          dupdate (s.member.getD "") (fun a =>
            { a with profit_share := profit_amount
                     profit_percentage := percentage }) d
        else d
      applySplits profit rest d'

/-- The balance loop (src/app.py lines 154-158): for every member,
balance = profit_share + (expenses_paid - reimbursed). -/
def setBalances (d : MemberDict) : MemberDict :=
  d.map (fun p => (p.1,
    { p.2 with balance := p.2.profit_share + (p.2.expenses_paid - p.2.reimbursed) }))

/-- The dictionary returned at src/app.py lines 160-165. -/
structure FinanceSummary where
  total_expenses : ℚ
  total_reimbursed : ℚ
  profit : ℚ
  member_data : MemberDict
deriving DecidableEq, Repr

/-- calculate_project_finances (src/app.py lines 118-165), with a Python
exception modelled as Except.error. -/
def calculate_project_finances (project_name : String) (expenses : List ExpenseRec)
    (reimbursements : List ReimbRec) (profit_splits : List SplitRec)
    (project_budget : ℚ) (team_members : List String) :
    Except String FinanceSummary := do
  let project_expenses := expenses.filter (fun e => e.project = some project_name)
  let project_reimbursements :=
    reimbursements.filter (fun r => r.project = some project_name)
  let project_splits := profit_splits.filter (fun s => s.project = some project_name)
  let total_expenses ← sumAmounts (project_expenses.map (fun e => e.amount)) 0
  let total_reimbursed ← sumAmounts (project_reimbursements.map (fun r => r.amount)) 0
  let profit := project_budget - total_expenses
  let d0 := initMembers team_members
  let d1 ← applyExpenses project_expenses d0
  let d2 ← applyReimbs project_reimbursements d1
  let d3 ← applySplits profit project_splits d2
  pure { total_expenses := total_expenses, total_reimbursed := total_reimbursed
         profit := profit, member_data := setBalances d3 }

/-! Characterizations used in the theorem statements: the key list of the
dict, per-member subtotals of the filtered records, and the last matching
profit split.  These are read off the loops of src/app.py lines 131-158. -/

/-- The insertion-ordered key list of the dict. -/
def keys (d : MemberDict) : List String := d.map (fun p => p.1)

/-- The rational a cell contributes when the coercion succeeds; 0 for a
missing cell.  On runs that return (no exception) no bad cell is ever
coerced, so this matches float(r.get("Amount", 0)) there. -/
def amountOf (a : Option PyVal) : ℚ :=
  match a.getD (PyVal.num 0) with
  | .num q => q
  | .bad _ => 0

/-- True when float() would raise on the cell (after the missing-field
default). -/
def badAmount (a : Option PyVal) : Bool :=
  match a.getD (PyVal.num 0) with
  | .num _ => false
  | .bad _ => true

/-- Subtotal of the amounts of the expenses paid by member k. -/
def expSum (k : String) (es : List ExpenseRec) : ℚ :=
  ((es.filter (fun e => e.paid_by = some k)).map (fun e => amountOf e.amount)).sum

/-- Subtotal of the amounts of the transfers received by member k. -/
def reimbSum (k : String) (rs : List ReimbRec) : ℚ :=
  ((rs.filter (fun r => r.to_person = some k)).map (fun r => amountOf r.amount)).sum

/-- The percentage of the last split row naming member k, if any: the
value that last-write-wins iteration leaves in place. -/
def lastPct (k : String) : List SplitRec → Option ℚ
  | [] => none
  | s :: rest =>
    match lastPct k rest with
    | some q => some q
    | none => if s.member = some k then some (amountOf s.percentage) else none

/-- Effect of the winning split row (if any) on an account. -/
def applyLast (o : Option ℚ) (profit : ℚ) (a : MemberAccount) : MemberAccount :=
  match o with
  | none => a
  | some q => { a with profit_share := (q / 100) * profit, profit_percentage := q }

/-- Closed form of the account the engine derives for member k from the
already-filtered project records. -/
def accountFor (profit : ℚ) (pe : List ExpenseRec) (pr : List ReimbRec)
    (ps : List SplitRec) (k : String) : MemberAccount :=
  let a := applyLast (lastPct k ps) profit
    { zeroAccount with expenses_paid := expSum k pe, reimbursed := reimbSum k pr }
  { a with balance := a.profit_share + (a.expenses_paid - a.reimbursed) }

/-- Whether the payer of an expense row is on the given roster (the "if
paid_by in member_data" test of src/app.py line 137, phrased against the
roster that seeds the dict). -/
def paidByIn (roster : List String) (e : ExpenseRec) : Bool :=
  match e.paid_by with
  | some p => decide (p ∈ roster)
  | none => false

/-- Whether the recipient of a transfer row is on the given roster (the
"if to_person in member_data" test of src/app.py line 143). -/
def sentToIn (roster : List String) (x : ReimbRec) : Bool :=
  match x.to_person with
  | some p => decide (p ∈ roster)
  | none => false

/-! A concrete sample ledger (the worked scenario of the specification
section 8), used to evaluate the definitions on closed inputs. -/

/-- Sample: A paid 2000 on project P. -/
def sampleExpenses : List ExpenseRec := [⟨some "P", some "A", some (.num 2000)⟩]

/-- Sample: the client sent A 1000 on project P. -/
def sampleReimbs : List ReimbRec := [⟨some "P", some "Client", some "A", some (.num 1000)⟩]

/-- Sample: profit split 50/50 between A and B on project P. -/
def sampleSplits : List SplitRec :=
  [⟨some "P", some "A", some (.num 50)⟩, ⟨some "P", some "B", some (.num 50)⟩]

/-- The summary the engine derives from the sample ledger with budget
10000 and team [A, B]. -/
def sampleResult : FinanceSummary :=
  { total_expenses := 2000, total_reimbursed := 1000, profit := 8000
    member_data := [("A", ⟨2000, 1000, 4000, 50, 5000⟩), ("B", ⟨0, 0, 4000, 50, 4000⟩)] }

/-- The summary the engine derives from the sample expenses alone
(budget 10000, team [A, B], no transfers, no splits). -/
def sampleNoReimb : FinanceSummary :=
  { total_expenses := 2000, total_reimbursed := 0, profit := 8000
    member_data := [("A", ⟨2000, 0, 0, 0, 2000⟩), ("B", zeroAccount)] }

/-- The summary the engine derives from the sample ledger once a 500
client payment to A is appended. -/
def sampleExt : FinanceSummary :=
  { total_expenses := 2000, total_reimbursed := 1500, profit := 8000
    member_data := [("A", ⟨2000, 1500, 4000, 50, 4500⟩), ("B", ⟨0, 0, 4000, 50, 4000⟩)] }

/-- An expense on project P paid by X, who is outside the roster [A]. -/
def strayExpense : ExpenseRec := ⟨some "P", some "X", some (.num 5)⟩

/-- A transfer on project P whose recipient X is outside the roster [A]. -/
def strayTransfer : ReimbRec := ⟨some "P", some "A", some "X", some (.num 5)⟩

/-- A transfer on project P to X with the opposite amount, cancelling
strayTransfer in the total. -/
def strayTransferNeg : ReimbRec := ⟨some "P", some "A", some "X", some (.num (-5))⟩

/-- A split on project P giving A the whole profit. -/
def straySplit : SplitRec := ⟨some "P", some "A", some (.num 100)⟩

/-- An expense on project P whose amount cell float() rejects. -/
def badExpense : ExpenseRec := ⟨some "P", some "A", some (.bad "n/a")⟩

/-- The summary for budget 0, team [A], and the single expense
strayExpense: its amount is in total_expenses but in no account. -/
def strayResult : FinanceSummary :=
  { total_expenses := 5, total_reimbursed := 0, profit := -5
    member_data := [("A", zeroAccount)] }

/-- The summary for budget 0, team [A], and the single transfer
strayTransfer: its amount is in total_reimbursed but in no account. -/
def strayTransferResult : FinanceSummary :=
  { total_expenses := 0, total_reimbursed := 5, profit := 0
    member_data := [("A", zeroAccount)] }

/-- The summary for budget 0, team [A], and the two cancelling stray
transfers. -/
def cancelResult : FinanceSummary :=
  { total_expenses := 0, total_reimbursed := 0, profit := 0
    member_data := [("A", zeroAccount)] }

/-- The summary for budget 100, team [A], splits [straySplit] and
expenses [strayExpense]. -/
def strayRunWith : FinanceSummary :=
  { total_expenses := 5, total_reimbursed := 0, profit := 95
    member_data := [("A", ⟨0, 0, 95, 100, 95⟩)] }

/-- The summary for budget 100, team [A], splits [straySplit] and no
expenses. -/
def strayRunWithout : FinanceSummary :=
  { total_expenses := 0, total_reimbursed := 0, profit := 100
    member_data := [("A", ⟨0, 0, 100, 100, 100⟩)] }

@[simp] theorem except_bind_ok {α β : Type} (x : α) (f : α → Except String β) :
    (Except.ok x >>= f : Except String β) = f x := rfl

@[simp] theorem except_bind_error {α β : Type} (e : String) (f : α → Except String β) :
    (Except.error e >>= f : Except String β) = Except.error e := rfl

@[simp] theorem keys_nil : keys [] = [] := rfl

@[simp] theorem keys_cons (p : String × MemberAccount) (d : MemberDict) :
    keys (p :: d) = p.1 :: keys d := rfl

@[simp] theorem keys_append (d₁ d₂ : MemberDict) :
    keys (d₁ ++ d₂) = keys d₁ ++ keys d₂ := by
  simp [keys]

theorem hasKey_some_iff (s : String) (d : MemberDict) :
    hasKey (some s) d = true ↔ s ∈ keys d := by
  induction d with
  | nil => simp [hasKey, keys]
  | cons p rest ih =>
    simp only [hasKey, List.any_cons, keys_cons, List.mem_cons, Bool.or_eq_true,
      decide_eq_true_eq] at *
    constructor
    · rintro (h | h)
      · exact Or.inl h.symm
      · exact Or.inr (ih.mp h)
    · rintro (h | h)
      · exact Or.inl h.symm
      · exact Or.inr (ih.mpr h)

@[simp] theorem hasKey_none (d : MemberDict) : hasKey none d = false := rfl

@[simp] theorem keys_dupdate (k : String) (f : MemberAccount → MemberAccount)
    (d : MemberDict) : keys (dupdate k f d) = keys d := by
  induction d with
  | nil => rfl
  | cons p rest ih =>
    by_cases h : p.1 = k <;> simp [dupdate, h, ih]

theorem dlookup_dupdate (k k' : String) (f : MemberAccount → MemberAccount)
    (d : MemberDict) :
    dlookup k (dupdate k' f d) =
      if k = k' then (dlookup k d).map f else dlookup k d := by
  induction d with
  | nil => simp [dupdate, dlookup]
  | cons p rest ih =>
    by_cases hp : p.1 = k'
    · by_cases hk : k = k'
      · subst hk; simp [dupdate, dlookup, hp, ih]
      · have hk' : ¬ p.1 = k := fun h => hk (h ▸ hp ▸ rfl)
        have hkk : ¬ k' = k := fun h => hk h.symm
        simp [dupdate, dlookup, hp, hk', ih, hk, hkk]
    · by_cases hpk : p.1 = k
      · have hk : ¬ k = k' := fun h => hp (hpk.symm ▸ h)
        simp [dupdate, dlookup, hp, hpk, hk]
      · simp [dupdate, dlookup, hp, hpk, ih]

theorem dlookup_isSome_iff (k : String) (d : MemberDict) :
    (dlookup k d).isSome = true ↔ k ∈ keys d := by
  induction d with
  | nil => simp [dlookup, keys]
  | cons p rest ih =>
    by_cases h : p.1 = k
    · subst h; simp [dlookup]
    · have h' : ¬ k = p.1 := fun he => h he.symm
      simp [dlookup, h, ih, h']

theorem dlookup_eq_none_of_not_mem {k : String} {d : MemberDict}
    (h : k ∉ keys d) : dlookup k d = none := by
  cases ho : dlookup k d with
  | none => rfl
  | some a => exact absurd ((dlookup_isSome_iff k d).mp (by simp [ho])) h

theorem dupdate_eq_of_not_mem {k : String} {d : MemberDict}
    (f : MemberAccount → MemberAccount) (h : k ∉ keys d) : dupdate k f d = d := by
  induction d with
  | nil => rfl
  | cons p rest ih =>
    simp only [keys_cons, List.mem_cons, not_or] at h
    have hpk : ¬ p.1 = k := fun he => h.1 he.symm
    simp [dupdate, hpk, ih h.2]

theorem dlookup_append (k : String) (d₁ d₂ : MemberDict) :
    dlookup k (d₁ ++ d₂) =
      if k ∈ keys d₁ then dlookup k d₁ else dlookup k d₂ := by
  induction d₁ with
  | nil => simp [dlookup]
  | cons p rest ih =>
    by_cases h : p.1 = k
    · subst h; simp [dlookup]
    · have h' : ¬ k = p.1 := fun he => h he.symm
      simp [dlookup, h, ih, h']

@[simp] theorem keys_setBalances (d : MemberDict) : keys (setBalances d) = keys d := by
  simp [keys, setBalances]

theorem dlookup_setBalances (k : String) (d : MemberDict) :
    dlookup k (setBalances d) = (dlookup k d).map (fun a =>
      { a with balance := a.profit_share + (a.expenses_paid - a.reimbursed) }) := by
  induction d with
  | nil => simp [setBalances, dlookup]
  | cons p rest ih =>
    by_cases h : p.1 = k
    · simp [setBalances, dlookup, h]
    · simp only [setBalances, List.map_cons, dlookup, h, if_false]
      simpa [setBalances] using ih

theorem dlookup_dinsert (k m : String) (v : MemberAccount) (d : MemberDict) :
    dlookup k (dinsert m v d) = if k = m then some v else dlookup k d := by
  unfold dinsert
  by_cases hm : hasKey (some m) d = true
  · have hmem : m ∈ keys d := (hasKey_some_iff m d).mp hm
    simp only [hm, if_true, dlookup_dupdate]
    by_cases hk : k = m
    · subst hk
      obtain ⟨a, ha⟩ := Option.isSome_iff_exists.mp ((dlookup_isSome_iff k d).mpr hmem)
      simp [ha]
    · simp [hk]
  · have hmem : m ∉ keys d := fun hc => hm ((hasKey_some_iff m d).mpr hc)
    rw [if_neg hm, dlookup_append]
    by_cases hk : k = m
    · subst hk; simp [dlookup_eq_none_of_not_mem hmem, hmem, dlookup]
    · by_cases hkd : k ∈ keys d
      · simp [hkd, hk]
      · simp [hkd, hk, dlookup_eq_none_of_not_mem hkd, dlookup]
        exact fun he => hk he.symm

theorem keys_dinsert (m : String) (v : MemberAccount) (d : MemberDict) :
    keys (dinsert m v d) = if m ∈ keys d then keys d else keys d ++ [m] := by
  unfold dinsert
  by_cases hm : hasKey (some m) d = true
  · simp [(hasKey_some_iff m d).mp hm, hm]
  · have hmem : m ∉ keys d := fun hc => hm ((hasKey_some_iff m d).mpr hc)
    simp [hm, hmem]

theorem dlookup_initMembers_aux (k : String) (tm : List String) :
    ∀ d : MemberDict,
      dlookup k (tm.foldl (fun d m => dinsert m zeroAccount d) d) =
        if k ∈ tm then some zeroAccount else dlookup k d := by
  induction tm with
  | nil => intro d; simp
  | cons m tm ih =>
    intro d
    simp only [List.foldl_cons]
    rw [ih (dinsert m zeroAccount d)]
    by_cases hk : k ∈ tm
    · simp [hk]
    · by_cases hkm : k = m
      · subst hkm; simp [hk, dlookup_dinsert]
      · simp [hk, hkm, dlookup_dinsert]

theorem dlookup_initMembers (k : String) (tm : List String) :
    dlookup k (initMembers tm) = if k ∈ tm then some zeroAccount else none := by
  rw [initMembers, dlookup_initMembers_aux k tm []]
  simp [dlookup]

theorem keys_initMembers_aux (tm : List String) :
    ∀ d : MemberDict,
      (∀ k, k ∈ keys (tm.foldl (fun d m => dinsert m zeroAccount d) d) ↔
        k ∈ keys d ∨ k ∈ tm) ∧
      ((keys d).Nodup →
        (keys (tm.foldl (fun d m => dinsert m zeroAccount d) d)).Nodup) := by
  induction tm with
  | nil => intro d; simp
  | cons m tm ih =>
    intro d
    simp only [List.foldl_cons]
    obtain ⟨ihmem, ihnd⟩ := ih (dinsert m zeroAccount d)
    constructor
    · intro k
      rw [ihmem k, keys_dinsert]
      by_cases hm : m ∈ keys d
      · simp only [hm, if_true, List.mem_cons]
        constructor
        · rintro (h | h)
          · exact Or.inl h
          · exact Or.inr (Or.inr h)
        · rintro (h | h | h)
          · exact Or.inl h
          · exact Or.inl (h ▸ hm)
          · exact Or.inr h
      · simp only [hm, if_false, List.mem_append, List.mem_singleton, List.mem_cons]
        tauto
    · intro hnd
      apply ihnd
      rw [keys_dinsert]
      by_cases hm : m ∈ keys d
      · simpa [hm] using hnd
      · simp [hm, List.nodup_append, hnd]

theorem mem_keys_initMembers (k : String) (tm : List String) :
    k ∈ keys (initMembers tm) ↔ k ∈ tm := by
  rw [initMembers]
  have := (keys_initMembers_aux tm []).1 k
  simpa using this

theorem keys_initMembers_nodup (tm : List String) :
    (keys (initMembers tm)).Nodup := by
  rw [initMembers]
  exact (keys_initMembers_aux tm []).2 (by simp)

/-! Lemmas about amount parsing and the running sums. -/

theorem amountOf_of_ok {a : Option PyVal} {q : ℚ} (h : getAmount a = .ok q) :
    amountOf a = q := by
  unfold getAmount pyFloat at h
  unfold amountOf
  cases hv : a.getD (PyVal.num 0) with
  | num q' => rw [hv] at h; cases h; rfl
  | bad s => rw [hv] at h; cases h

theorem badAmount_false_of_ok {a : Option PyVal} {q : ℚ} (h : getAmount a = .ok q) :
    badAmount a = false := by
  unfold getAmount pyFloat at h
  unfold badAmount
  cases hv : a.getD (PyVal.num 0) with
  | num q' => rfl
  | bad s => rw [hv] at h; cases h

theorem getAmount_ok_of_not_bad {a : Option PyVal} (h : badAmount a = false) :
    getAmount a = .ok (amountOf a) := by
  unfold badAmount at h
  unfold getAmount pyFloat amountOf
  cases hv : a.getD (PyVal.num 0) with
  | num q' => rfl
  | bad s => rw [hv] at h; cases h

theorem sumAmounts_ok (l : List (Option PyVal)) :
    ∀ acc t, sumAmounts l acc = .ok t → t = acc + (l.map amountOf).sum := by
  induction l with
  | nil =>
    intro acc t h
    cases h
    simp
  | cons a rest ih =>
    intro acc t h
    cases ham : getAmount a with
    | error msg => simp only [sumAmounts, ham] at h; cases h
    | ok q =>
      simp only [sumAmounts, ham] at h
      rw [ih _ _ h]
      simp only [List.map_cons, List.sum_cons, amountOf_of_ok ham]
      ring

theorem sumAmounts_error_of_bad (l : List (Option PyVal)) :
    ∀ acc, (∃ a ∈ l, badAmount a = true) → ∃ m, sumAmounts l acc = .error m := by
  induction l with
  | nil => rintro acc ⟨a, ha, _⟩; cases ha
  | cons a rest ih =>
    rintro acc ⟨x, hx, hbad⟩
    cases ham : getAmount a with
    | error msg => exact ⟨msg, by simp only [sumAmounts, ham]⟩
    | ok q =>
      rcases List.mem_cons.mp hx with rfl | hx'
      · rw [badAmount_false_of_ok ham] at hbad; cases hbad
      · obtain ⟨m, hm⟩ := ih (acc + q) ⟨x, hx', hbad⟩
        exact ⟨m, by simp only [sumAmounts, ham, hm]⟩

theorem sumAmounts_ok_of_good (l : List (Option PyVal)) :
    ∀ acc, (∀ a ∈ l, badAmount a = false) →
      sumAmounts l acc = .ok (acc + (l.map amountOf).sum) := by
  induction l with
  | nil => intro acc _; simp [sumAmounts]
  | cons a rest ih =>
    intro acc hgood
    simp only [sumAmounts, getAmount_ok_of_not_bad (hgood a (by simp))]
    rw [ih (acc + amountOf a) (fun x hx => hgood x (by simp [hx]))]
    simp [add_assoc]

theorem sumAmounts_append (l₁ l₂ : List (Option PyVal)) :
    ∀ acc, sumAmounts (l₁ ++ l₂) acc =
      match sumAmounts l₁ acc with
      | .error m => .error m
      | .ok t => sumAmounts l₂ t := by
  induction l₁ with
  | nil => intro acc; simp [sumAmounts]
  | cons a rest ih =>
    intro acc
    cases ham : getAmount a with
    | error msg => simp [sumAmounts, ham]
    | ok q => simp [sumAmounts, ham, ih]

theorem expSum_cons (k : String) (e : ExpenseRec) (es : List ExpenseRec) :
    expSum k (e :: es) =
      (if e.paid_by = some k then amountOf e.amount else 0) + expSum k es := by
  by_cases h : e.paid_by = some k <;> simp [expSum, List.filter_cons, h]

theorem reimbSum_cons (k : String) (r : ReimbRec) (rs : List ReimbRec) :
    reimbSum k (r :: rs) =
      (if r.to_person = some k then amountOf r.amount else 0) + reimbSum k rs := by
  by_cases h : r.to_person = some k <;> simp [reimbSum, List.filter_cons, h]

/-! Per-stage characterizations: each loop preserves the key list, and the
entry of each key after the loop is a function of its entry before it. -/

theorem applyExpenses_keys (es : List ExpenseRec) :
    ∀ d d', applyExpenses es d = .ok d' → keys d' = keys d := by
  induction es with
  | nil => intro d d' h; cases h; rfl
  | cons e rest ih =>
    intro d d' h
    cases ham : getAmount e.amount with
    | error msg => simp only [applyExpenses, ham] at h; cases h
    | ok q =>
      simp only [applyExpenses, ham] at h
      rw [ih _ _ h]
      by_cases hk : hasKey e.paid_by d = true <;> simp [hk]

theorem applyReimbs_keys (rs : List ReimbRec) :
    ∀ d d', applyReimbs rs d = .ok d' → keys d' = keys d := by
  induction rs with
  | nil => intro d d' h; cases h; rfl
  | cons r rest ih =>
    intro d d' h
    cases ham : getAmount r.amount with
    | error msg => simp only [applyReimbs, ham] at h; cases h
    | ok q =>
      simp only [applyReimbs, ham] at h
      rw [ih _ _ h]
      by_cases hk : hasKey r.to_person d = true <;> simp [hk]

theorem applySplits_keys (profit : ℚ) (ss : List SplitRec) :
    ∀ d d', applySplits profit ss d = .ok d' → keys d' = keys d := by
  induction ss with
  | nil => intro d d' h; cases h; rfl
  | cons s rest ih =>
    intro d d' h
    cases ham : getAmount s.percentage with
    | error msg => simp only [applySplits, ham] at h; cases h
    | ok q =>
      simp only [applySplits, ham] at h
      rw [ih _ _ h]
      by_cases hk : hasKey s.member d = true <;> simp [hk]

theorem applyExpenses_dlookup (es : List ExpenseRec) :
    ∀ d d', applyExpenses es d = .ok d' → ∀ k, dlookup k d' =
      (dlookup k d).map
        (fun a => { a with expenses_paid := a.expenses_paid + expSum k es }) := by
  induction es with
  | nil =>
    intro d d' h k
    cases h
    cases hl : dlookup k d <;> simp [expSum]
  | cons e rest ih =>
    intro d d' h k
    cases ham : getAmount e.amount with
    | error msg => simp only [applyExpenses, ham] at h; cases h
    | ok q =>
      simp only [applyExpenses, ham] at h
      rw [ih _ _ h k, expSum_cons, amountOf_of_ok ham]
      by_cases hkey : hasKey e.paid_by d = true
      · cases hpb : e.paid_by with
        | none => rw [hpb] at hkey; simp [hasKey] at hkey
        | some p =>
          rw [hpb] at hkey
          rw [if_pos hkey]
          simp only [Option.getD_some, dlookup_dupdate]
          by_cases hkp : k = p
          · subst hkp
            cases dlookup k d <;> simp [add_assoc]
          · have hne : ¬ (some p = some k) := by simpa using fun h => hkp h.symm
            simp [hkp, hne]
      · rw [if_neg hkey]
        cases hpb : e.paid_by with
        | none => simp
        | some p =>
          rw [hpb] at hkey
          have hpmem : p ∉ keys d := fun hc => hkey ((hasKey_some_iff p d).mpr hc)
          by_cases hkp : p = k
          · subst hkp
            rw [dlookup_eq_none_of_not_mem hpmem]
            simp
          · have hne : ¬ (some p = some k) := by simpa using hkp
            simp [hne]

theorem applyReimbs_dlookup (rs : List ReimbRec) :
    ∀ d d', applyReimbs rs d = .ok d' → ∀ k, dlookup k d' =
      (dlookup k d).map
        (fun a => { a with reimbursed := a.reimbursed + reimbSum k rs }) := by
  induction rs with
  | nil =>
    intro d d' h k
    cases h
    cases hl : dlookup k d <;> simp [reimbSum]
  | cons r rest ih =>
    intro d d' h k
    cases ham : getAmount r.amount with
    | error msg => simp only [applyReimbs, ham] at h; cases h
    | ok q =>
      simp only [applyReimbs, ham] at h
      rw [ih _ _ h k, reimbSum_cons, amountOf_of_ok ham]
      by_cases hkey : hasKey r.to_person d = true
      · cases hpb : r.to_person with
        | none => rw [hpb] at hkey; simp [hasKey] at hkey
        | some p =>
          rw [hpb] at hkey
          rw [if_pos hkey]
          simp only [Option.getD_some, dlookup_dupdate]
          by_cases hkp : k = p
          · subst hkp
            cases dlookup k d <;> simp [add_assoc]
          · have hne : ¬ (some p = some k) := by simpa using fun h => hkp h.symm
            simp [hkp, hne]
      · rw [if_neg hkey]
        cases hpb : r.to_person with
        | none => simp
        | some p =>
          rw [hpb] at hkey
          have hpmem : p ∉ keys d := fun hc => hkey ((hasKey_some_iff p d).mpr hc)
          by_cases hkp : p = k
          · subst hkp
            rw [dlookup_eq_none_of_not_mem hpmem]
            simp
          · have hne : ¬ (some p = some k) := by simpa using hkp
            simp [hne]

theorem applySplits_dlookup (profit : ℚ) (ss : List SplitRec) :
    ∀ d d', applySplits profit ss d = .ok d' → ∀ k, dlookup k d' =
      (dlookup k d).map (applyLast (lastPct k ss) profit) := by
  induction ss with
  | nil =>
    intro d d' h k
    cases h
    cases hl : dlookup k d <;> simp [lastPct, applyLast]
  | cons s rest ih =>
    intro d d' h k
    cases ham : getAmount s.percentage with
    | error msg => simp only [applySplits, ham] at h; cases h
    | ok q =>
      simp only [applySplits, ham] at h
      rw [ih _ _ h k]
      by_cases hkey : hasKey s.member d = true
      · cases hsm : s.member with
        | none => rw [hsm] at hkey; simp [hasKey] at hkey
        | some p =>
          rw [hsm] at hkey
          rw [if_pos hkey]
          simp only [Option.getD_some, dlookup_dupdate]
          by_cases hkp : k = p
          · subst hkp
            cases hl : lastPct k rest with
            | some q' =>
              cases dlookup k d <;> simp [lastPct, hl, applyLast]
            | none =>
              cases dlookup k d <;>
                simp [lastPct, hl, applyLast, hsm, amountOf_of_ok ham]
          · have hne : ¬ (some p = some k) := by simpa using fun h => hkp h.symm
            cases hl : lastPct k rest with
            | some q' => simp [hkp, lastPct, hl]
            | none => simp [hkp, lastPct, hl, hne, hsm]
      · rw [if_neg hkey]
        cases hsm : s.member with
        | none =>
          cases hl : lastPct k rest with
          | some q' => simp [lastPct, hl]
          | none => simp [lastPct, hl, hsm]
        | some p =>
          rw [hsm] at hkey
          have hpmem : p ∉ keys d := fun hc => hkey ((hasKey_some_iff p d).mpr hc)
          by_cases hkp : p = k
          · subst hkp
            rw [dlookup_eq_none_of_not_mem hpmem]
            simp
          · have hne : ¬ (some p = some k) := by simpa using hkp
            cases hl : lastPct k rest with
            | some q' => simp [lastPct, hl]
            | none => simp [lastPct, hl, hsm, hne]

/-! Success of each loop depends only on the parseability of the amounts,
never on the dict contents. -/

@[simp] theorem except_pure {α : Type} (x : α) :
    (pure x : Except String α) = Except.ok x := rfl

theorem sumAmounts_good_of_ok {l : List (Option PyVal)} :
    ∀ {acc t}, sumAmounts l acc = .ok t → ∀ a ∈ l, badAmount a = false := by
  induction l with
  | nil => intro acc t _ a ha; cases ha
  | cons x rest ih =>
    intro acc t h a ha
    cases ham : getAmount x with
    | error msg => simp only [sumAmounts, ham] at h; cases h
    | ok q =>
      simp only [sumAmounts, ham] at h
      rcases List.mem_cons.mp ha with rfl | ha'
      · exact badAmount_false_of_ok ham
      · exact ih h a ha'

theorem applyExpenses_good_of_ok {es : List ExpenseRec} :
    ∀ {d d'}, applyExpenses es d = .ok d' → ∀ e ∈ es, badAmount e.amount = false := by
  induction es with
  | nil => intro d d' _ e he; cases he
  | cons x rest ih =>
    intro d d' h e he
    cases ham : getAmount x.amount with
    | error msg => simp only [applyExpenses, ham] at h; cases h
    | ok q =>
      simp only [applyExpenses, ham] at h
      rcases List.mem_cons.mp he with rfl | he'
      · exact badAmount_false_of_ok ham
      · exact ih h e he'

theorem applyReimbs_good_of_ok {rs : List ReimbRec} :
    ∀ {d d'}, applyReimbs rs d = .ok d' → ∀ x ∈ rs, badAmount x.amount = false := by
  induction rs with
  | nil => intro d d' _ x hx; cases hx
  | cons y rest ih =>
    intro d d' h x hx
    cases ham : getAmount y.amount with
    | error msg => simp only [applyReimbs, ham] at h; cases h
    | ok q =>
      simp only [applyReimbs, ham] at h
      rcases List.mem_cons.mp hx with rfl | hx'
      · exact badAmount_false_of_ok ham
      · exact ih h x hx'

theorem applySplits_good_of_ok {profit : ℚ} {ss : List SplitRec} :
    ∀ {d d'}, applySplits profit ss d = .ok d' →
      ∀ s ∈ ss, badAmount s.percentage = false := by
  induction ss with
  | nil => intro d d' _ s hs; cases hs
  | cons x rest ih =>
    intro d d' h s hs
    cases ham : getAmount x.percentage with
    | error msg => simp only [applySplits, ham] at h; cases h
    | ok q =>
      simp only [applySplits, ham] at h
      rcases List.mem_cons.mp hs with rfl | hs'
      · exact badAmount_false_of_ok ham
      · exact ih h s hs'

theorem applyExpenses_ok_of_good (es : List ExpenseRec) :
    ∀ d, (∀ e ∈ es, badAmount e.amount = false) →
      ∃ d', applyExpenses es d = .ok d' := by
  induction es with
  | nil => intro d _; exact ⟨d, rfl⟩
  | cons e rest ih =>
    intro d hgood
    obtain ⟨d', hd'⟩ := ih
      (if hasKey e.paid_by d then
        dupdate (e.paid_by.getD "") (fun a =>
          { a with expenses_paid := a.expenses_paid + amountOf e.amount }) d
      else d) (fun x hx => hgood x (by simp [hx]))
    exact ⟨d', by
      simp only [applyExpenses, getAmount_ok_of_not_bad (hgood e (by simp))]
      exact hd'⟩

theorem applyReimbs_ok_of_good (rs : List ReimbRec) :
    ∀ d, (∀ x ∈ rs, badAmount x.amount = false) →
      ∃ d', applyReimbs rs d = .ok d' := by
  induction rs with
  | nil => intro d _; exact ⟨d, rfl⟩
  | cons r rest ih =>
    intro d hgood
    obtain ⟨d', hd'⟩ := ih
      (if hasKey r.to_person d then
        dupdate (r.to_person.getD "") (fun a =>
          { a with reimbursed := a.reimbursed + amountOf r.amount }) d
      else d) (fun x hx => hgood x (by simp [hx]))
    exact ⟨d', by
      simp only [applyReimbs, getAmount_ok_of_not_bad (hgood r (by simp))]
      exact hd'⟩

theorem applySplits_ok_of_good (profit : ℚ) (ss : List SplitRec) :
    ∀ d, (∀ s ∈ ss, badAmount s.percentage = false) →
      ∃ d', applySplits profit ss d = .ok d' := by
  induction ss with
  | nil => intro d _; exact ⟨d, rfl⟩
  | cons s rest ih =>
    intro d hgood
    obtain ⟨d', hd'⟩ := ih
      (if hasKey s.member d then
        dupdate (s.member.getD "") (fun a =>
          { a with profit_share := (amountOf s.percentage / 100) * profit
                   profit_percentage := amountOf s.percentage }) d
      else d) (fun x hx => hgood x (by simp [hx]))
    exact ⟨d', by
      simp only [applySplits, getAmount_ok_of_not_bad (hgood s (by simp))]
      exact hd'⟩

/-! Destructuring a returning run of the engine into its five stages, and
the per-member closed form of the returned accounts. -/

theorem calc_ok_elim {pn : String} {ex : List ExpenseRec} {rs : List ReimbRec}
    {sp : List SplitRec} {b : ℚ} {tm : List String} {r : FinanceSummary}
    (h : calculate_project_finances pn ex rs sp b tm = .ok r) :
    ∃ te tr d1 d2 d3,
      sumAmounts ((ex.filter (fun e => e.project = some pn)).map (fun e => e.amount)) 0 = .ok te ∧
      sumAmounts ((rs.filter (fun x => x.project = some pn)).map (fun x => x.amount)) 0 = .ok tr ∧
      applyExpenses (ex.filter (fun e => e.project = some pn)) (initMembers tm) = .ok d1 ∧
      applyReimbs (rs.filter (fun x => x.project = some pn)) d1 = .ok d2 ∧
      applySplits (b - te) (sp.filter (fun s => s.project = some pn)) d2 = .ok d3 ∧
      r = { total_expenses := te, total_reimbursed := tr, profit := b - te,
            member_data := setBalances d3 } := by
  simp only [calculate_project_finances] at h
  cases h1 : sumAmounts ((ex.filter (fun e => e.project = some pn)).map (fun e => e.amount)) 0 with
  | error m => rw [h1] at h; simp at h
  | ok te =>
    rw [h1] at h
    simp only [except_bind_ok] at h
    cases h2 : sumAmounts ((rs.filter (fun x => x.project = some pn)).map (fun x => x.amount)) 0 with
    | error m => rw [h2] at h; simp at h
    | ok tr =>
      rw [h2] at h
      simp only [except_bind_ok] at h
      cases h3 : applyExpenses (ex.filter (fun e => e.project = some pn)) (initMembers tm) with
      | error m => rw [h3] at h; simp at h
      | ok d1 =>
        rw [h3] at h
        simp only [except_bind_ok] at h
        cases h4 : applyReimbs (rs.filter (fun x => x.project = some pn)) d1 with
        | error m => rw [h4] at h; simp at h
        | ok d2 =>
          rw [h4] at h
          simp only [except_bind_ok] at h
          cases h5 : applySplits (b - te) (sp.filter (fun s => s.project = some pn)) d2 with
          | error m => rw [h5] at h; simp at h
          | ok d3 =>
            rw [h5] at h
            simp only [except_bind_ok, except_pure, Except.ok.injEq] at h
            exact ⟨te, tr, d1, d2, d3, rfl, rfl, rfl, h4, h5, h.symm⟩

theorem calc_dlookup {pn : String} {ex : List ExpenseRec} {rs : List ReimbRec}
    {sp : List SplitRec} {b : ℚ} {tm : List String} {r : FinanceSummary}
    (h : calculate_project_finances pn ex rs sp b tm = .ok r) (k : String) :
    dlookup k r.member_data =
      if k ∈ tm then
        some (accountFor r.profit (ex.filter (fun e => e.project = some pn))
          (rs.filter (fun x => x.project = some pn))
          (sp.filter (fun s => s.project = some pn)) k)
      else none := by
  obtain ⟨te, tr, d1, d2, d3, h1, h2, h3, h4, h5, hr⟩ := calc_ok_elim h
  subst hr
  show dlookup k (setBalances d3) = _
  rw [dlookup_setBalances, applySplits_dlookup _ _ _ _ h5 k,
      applyReimbs_dlookup _ _ _ h4 k, applyExpenses_dlookup _ _ _ h3 k,
      dlookup_initMembers]
  by_cases hk : k ∈ tm
  · simp [hk, accountFor, zeroAccount]
  · simp [hk]

theorem calc_keys {pn : String} {ex : List ExpenseRec} {rs : List ReimbRec}
    {sp : List SplitRec} {b : ℚ} {tm : List String} {r : FinanceSummary}
    (h : calculate_project_finances pn ex rs sp b tm = .ok r) :
    keys r.member_data = keys (initMembers tm) := by
  obtain ⟨te, tr, d1, d2, d3, h1, h2, h3, h4, h5, hr⟩ := calc_ok_elim h
  subst hr
  show keys (setBalances d3) = _
  rw [keys_setBalances, applySplits_keys _ _ _ _ h5, applyReimbs_keys _ _ _ h4,
      applyExpenses_keys _ _ _ h3]

/-! Sums of a single account field over the whole dict, for the
conservation claims about totals. -/

theorem hasKey_false_of_not_mem {p : String} {d : MemberDict} (hm : p ∉ keys d) :
    hasKey (some p) d = false := by
  cases hhk : hasKey (some p) d
  · rfl
  · exact absurd ((hasKey_some_iff p d).mp hhk) hm

theorem hasKey_paid_by (e : ExpenseRec) (d : MemberDict) :
    hasKey e.paid_by d = paidByIn (keys d) e := by
  unfold paidByIn
  cases hp : e.paid_by with
  | none => rfl
  | some p =>
    by_cases hm : p ∈ keys d
    · simp [hm, (hasKey_some_iff p d).mpr hm]
    · simp [hm, hasKey_false_of_not_mem hm]

theorem hasKey_to_person (x : ReimbRec) (d : MemberDict) :
    hasKey x.to_person d = sentToIn (keys d) x := by
  unfold sentToIn
  cases hp : x.to_person with
  | none => rfl
  | some p =>
    by_cases hm : p ∈ keys d
    · simp [hm, (hasKey_some_iff p d).mpr hm]
    · simp [hm, hasKey_false_of_not_mem hm]

theorem sum_ep_dupdate_other (k : String) (f : MemberAccount → MemberAccount)
    (hf : ∀ a, (f a).expenses_paid = a.expenses_paid) (d : MemberDict) :
    ((dupdate k f d).map (fun p => p.2.expenses_paid)).sum =
      (d.map (fun p => p.2.expenses_paid)).sum := by
  induction d with
  | nil => rfl
  | cons p rest ih =>
    by_cases h : p.1 = k <;> simp [dupdate, h, ih, hf]

theorem sum_rb_dupdate_other (k : String) (f : MemberAccount → MemberAccount)
    (hf : ∀ a, (f a).reimbursed = a.reimbursed) (d : MemberDict) :
    ((dupdate k f d).map (fun p => p.2.reimbursed)).sum =
      (d.map (fun p => p.2.reimbursed)).sum := by
  induction d with
  | nil => rfl
  | cons p rest ih =>
    by_cases h : p.1 = k <;> simp [dupdate, h, ih, hf]

theorem sum_ep_dupdate_add (k : String) (q : ℚ) :
    ∀ d : MemberDict, (keys d).Nodup → k ∈ keys d →
      ((dupdate k (fun a => { a with expenses_paid := a.expenses_paid + q }) d).map
        (fun p => p.2.expenses_paid)).sum =
      (d.map (fun p => p.2.expenses_paid)).sum + q := by
  intro d
  induction d with
  | nil => intro _ hk; cases hk
  | cons p rest ih =>
    intro hnd hk
    by_cases h : p.1 = k
    · subst h
      have hmem : p.1 ∉ keys rest := by
        simpa using (List.nodup_cons.mp (by simpa using hnd)).1
      simp [dupdate, dupdate_eq_of_not_mem _ hmem]
      ring
    · have hk' : k ∈ keys rest := by
        rcases List.mem_cons.mp hk with h' | h'
        · exact absurd h'.symm h
        · exact h'
      have hnd' : (keys rest).Nodup := (List.nodup_cons.mp (by simpa using hnd)).2
      simp [dupdate, h, ih hnd' hk']
      ring

theorem sum_rb_dupdate_add (k : String) (q : ℚ) :
    ∀ d : MemberDict, (keys d).Nodup → k ∈ keys d →
      ((dupdate k (fun a => { a with reimbursed := a.reimbursed + q }) d).map
        (fun p => p.2.reimbursed)).sum =
      (d.map (fun p => p.2.reimbursed)).sum + q := by
  intro d
  induction d with
  | nil => intro _ hk; cases hk
  | cons p rest ih =>
    intro hnd hk
    by_cases h : p.1 = k
    · subst h
      have hmem : p.1 ∉ keys rest := by
        simpa using (List.nodup_cons.mp (by simpa using hnd)).1
      simp [dupdate, dupdate_eq_of_not_mem _ hmem]
      ring
    · have hk' : k ∈ keys rest := by
        rcases List.mem_cons.mp hk with h' | h'
        · exact absurd h'.symm h
        · exact h'
      have hnd' : (keys rest).Nodup := (List.nodup_cons.mp (by simpa using hnd)).2
      simp [dupdate, h, ih hnd' hk']
      ring

theorem applyExpenses_sum_ep (es : List ExpenseRec) :
    ∀ d d', applyExpenses es d = .ok d' → (keys d).Nodup →
      (d'.map (fun p => p.2.expenses_paid)).sum =
        (d.map (fun p => p.2.expenses_paid)).sum +
          ((es.filter (paidByIn (keys d))).map (fun e => amountOf e.amount)).sum := by
  induction es with
  | nil =>
    intro d d' h _
    cases h
    simp
  | cons e rest ih =>
    intro d d' h hnd
    cases ham : getAmount e.amount with
    | error msg => simp only [applyExpenses, ham] at h; cases h
    | ok q =>
      simp only [applyExpenses, ham] at h
      rw [List.filter_cons]
      by_cases hkey : hasKey e.paid_by d = true
      · rw [if_pos hkey] at h
        have hpin : paidByIn (keys d) e = true := by rw [← hasKey_paid_by]; exact hkey
        cases hpb : e.paid_by with
        | none => rw [hpb] at hkey; simp [hasKey] at hkey
        | some p =>
          rw [hpb] at hkey
          have hmem : p ∈ keys d := (hasKey_some_iff p d).mp hkey
          have hkd : keys (dupdate p (fun a =>
              { a with expenses_paid := a.expenses_paid + q }) d) = keys d := keys_dupdate _ _ _
          have ihh := ih _ _ (by simpa [hpb] using h) (by rw [hkd]; exact hnd)
          rw [hkd] at ihh
          rw [ihh, sum_ep_dupdate_add p q d hnd hmem, hpin]
          simp [amountOf_of_ok ham]
          ring
      · rw [if_neg hkey] at h
        have hpin : paidByIn (keys d) e = false := by rw [← hasKey_paid_by]; simpa using hkey
        rw [ih _ _ h hnd, hpin]
        simp

theorem applyReimbs_sum_rb (rs : List ReimbRec) :
    ∀ d d', applyReimbs rs d = .ok d' → (keys d).Nodup →
      (d'.map (fun p => p.2.reimbursed)).sum =
        (d.map (fun p => p.2.reimbursed)).sum +
          ((rs.filter (sentToIn (keys d))).map (fun x => amountOf x.amount)).sum := by
  induction rs with
  | nil =>
    intro d d' h _
    cases h
    simp
  | cons x rest ih =>
    intro d d' h hnd
    cases ham : getAmount x.amount with
    | error msg => simp only [applyReimbs, ham] at h; cases h
    | ok q =>
      simp only [applyReimbs, ham] at h
      rw [List.filter_cons]
      by_cases hkey : hasKey x.to_person d = true
      · rw [if_pos hkey] at h
        have hpin : sentToIn (keys d) x = true := by rw [← hasKey_to_person]; exact hkey
        cases hpb : x.to_person with
        | none => rw [hpb] at hkey; simp [hasKey] at hkey
        | some p =>
          rw [hpb] at hkey
          have hmem : p ∈ keys d := (hasKey_some_iff p d).mp hkey
          have hkd : keys (dupdate p (fun a =>
              { a with reimbursed := a.reimbursed + q }) d) = keys d := keys_dupdate _ _ _
          have ihh := ih _ _ (by simpa [hpb] using h) (by rw [hkd]; exact hnd)
          rw [hkd] at ihh
          rw [ihh, sum_rb_dupdate_add p q d hnd hmem, hpin]
          simp [amountOf_of_ok ham]
          ring
      · rw [if_neg hkey] at h
        have hpin : sentToIn (keys d) x = false := by rw [← hasKey_to_person]; simpa using hkey
        rw [ih _ _ h hnd, hpin]
        simp

theorem applyReimbs_sum_ep (rs : List ReimbRec) :
    ∀ d d', applyReimbs rs d = .ok d' →
      (d'.map (fun p => p.2.expenses_paid)).sum =
        (d.map (fun p => p.2.expenses_paid)).sum := by
  induction rs with
  | nil => intro d d' h; cases h; rfl
  | cons x rest ih =>
    intro d d' h
    cases ham : getAmount x.amount with
    | error msg => simp only [applyReimbs, ham] at h; cases h
    | ok q =>
      simp only [applyReimbs, ham] at h
      rw [ih _ _ h]
      by_cases hkey : hasKey x.to_person d = true
      · rw [if_pos hkey]
        exact sum_ep_dupdate_other _
          (fun a => { a with reimbursed := a.reimbursed + q }) (fun a => rfl) d
      · rw [if_neg hkey]

theorem applyExpenses_sum_rb (es : List ExpenseRec) :
    ∀ d d', applyExpenses es d = .ok d' →
      (d'.map (fun p => p.2.reimbursed)).sum =
        (d.map (fun p => p.2.reimbursed)).sum := by
  induction es with
  | nil => intro d d' h; cases h; rfl
  | cons e rest ih =>
    intro d d' h
    cases ham : getAmount e.amount with
    | error msg => simp only [applyExpenses, ham] at h; cases h
    | ok q =>
      simp only [applyExpenses, ham] at h
      rw [ih _ _ h]
      by_cases hkey : hasKey e.paid_by d = true
      · rw [if_pos hkey]
        exact sum_rb_dupdate_other _
          (fun a => { a with expenses_paid := a.expenses_paid + q }) (fun a => rfl) d
      · rw [if_neg hkey]

theorem applySplits_sum_ep (profit : ℚ) (ss : List SplitRec) :
    ∀ d d', applySplits profit ss d = .ok d' →
      (d'.map (fun p => p.2.expenses_paid)).sum =
        (d.map (fun p => p.2.expenses_paid)).sum := by
  induction ss with
  | nil => intro d d' h; cases h; rfl
  | cons s rest ih =>
    intro d d' h
    cases ham : getAmount s.percentage with
    | error msg => simp only [applySplits, ham] at h; cases h
    | ok q =>
      simp only [applySplits, ham] at h
      rw [ih _ _ h]
      by_cases hkey : hasKey s.member d = true
      · rw [if_pos hkey]
        exact sum_ep_dupdate_other _
          (fun a => { a with profit_share := (q / 100) * profit
                             profit_percentage := q }) (fun a => rfl) d
      · rw [if_neg hkey]

theorem applySplits_sum_rb (profit : ℚ) (ss : List SplitRec) :
    ∀ d d', applySplits profit ss d = .ok d' →
      (d'.map (fun p => p.2.reimbursed)).sum =
        (d.map (fun p => p.2.reimbursed)).sum := by
  induction ss with
  | nil => intro d d' h; cases h; rfl
  | cons s rest ih =>
    intro d d' h
    cases ham : getAmount s.percentage with
    | error msg => simp only [applySplits, ham] at h; cases h
    | ok q =>
      simp only [applySplits, ham] at h
      rw [ih _ _ h]
      by_cases hkey : hasKey s.member d = true
      · rw [if_pos hkey]
        exact sum_rb_dupdate_other _
          (fun a => { a with profit_share := (q / 100) * profit
                             profit_percentage := q }) (fun a => rfl) d
      · rw [if_neg hkey]

theorem sum_ep_setBalances (d : MemberDict) :
    ((setBalances d).map (fun p => p.2.expenses_paid)).sum =
      (d.map (fun p => p.2.expenses_paid)).sum := by
  simp [setBalances, List.map_map]
  rfl

theorem sum_rb_setBalances (d : MemberDict) :
    ((setBalances d).map (fun p => p.2.reimbursed)).sum =
      (d.map (fun p => p.2.reimbursed)).sum := by
  simp [setBalances, List.map_map]
  rfl

theorem initMembers_values (tm : List String) :
    ∀ p ∈ initMembers tm, p.2 = zeroAccount := by
  have aux : ∀ (l : List String) (d : MemberDict), (∀ p ∈ d, p.2 = zeroAccount) →
      ∀ p ∈ l.foldl (fun d m => dinsert m zeroAccount d) d, p.2 = zeroAccount := by
    intro l
    induction l with
    | nil => intro d hd; simpa using hd
    | cons m rest ih =>
      intro d hd
      simp only [List.foldl_cons]
      apply ih
      intro p hp
      unfold dinsert at hp
      by_cases hm : hasKey (some m) d = true
      · rw [if_pos hm] at hp
        clear hm
        induction d with
        | nil => cases hp
        | cons x xs ihd =>
          simp only [dupdate] at hp
          by_cases hx : x.1 = m
          · rw [if_pos hx] at hp
            rcases List.mem_cons.mp hp with rfl | hp'
            · rfl
            · exact ihd (fun p hp => hd p (by simp [hp])) hp'
          · rw [if_neg hx] at hp
            rcases List.mem_cons.mp hp with rfl | hp'
            · exact hd p (by simp)
            · exact ihd (fun p hp => hd p (by simp [hp])) hp'
      · rw [if_neg hm] at hp
        rcases List.mem_append.mp hp with hp' | hp'
        · exact hd p hp'
        · rcases List.mem_singleton.mp hp' with rfl
          rfl
  intro p hp
  exact aux tm [] (by simp) p hp

theorem sum_ep_initMembers (tm : List String) :
    ((initMembers tm).map (fun p => p.2.expenses_paid)).sum = 0 := by
  apply List.sum_eq_zero
  intro x hx
  obtain ⟨p, hp, rfl⟩ := List.mem_map.mp hx
  rw [initMembers_values tm p hp]
  rfl

theorem sum_rb_initMembers (tm : List String) :
    ((initMembers tm).map (fun p => p.2.reimbursed)).sum = 0 := by
  apply List.sum_eq_zero
  intro x hx
  obtain ⟨p, hp, rfl⟩ := List.mem_map.mp hx
  rw [initMembers_values tm p hp]
  rfl

theorem paidByIn_keys_initMembers (tm : List String) (e : ExpenseRec) :
    paidByIn (keys (initMembers tm)) e = paidByIn tm e := by
  unfold paidByIn
  cases e.paid_by with
  | none => rfl
  | some p => simp [mem_keys_initMembers]

theorem sentToIn_keys_initMembers (tm : List String) (x : ReimbRec) :
    sentToIn (keys (initMembers tm)) x = sentToIn tm x := by
  unfold sentToIn
  cases x.to_person with
  | none => rfl
  | some p => simp [mem_keys_initMembers]

theorem calc_sum_ep {pn : String} {ex : List ExpenseRec} {rs : List ReimbRec}
    {sp : List SplitRec} {b : ℚ} {tm : List String} {r : FinanceSummary}
    (h : calculate_project_finances pn ex rs sp b tm = .ok r) :
    (r.member_data.map (fun p => p.2.expenses_paid)).sum =
      (((ex.filter (fun e => e.project = some pn)).filter (paidByIn tm)).map
        (fun e => amountOf e.amount)).sum := by
  obtain ⟨te, tr, d1, d2, d3, h1, h2, h3, h4, h5, hr⟩ := calc_ok_elim h
  subst hr
  show ((setBalances d3).map (fun p => p.2.expenses_paid)).sum = _
  rw [sum_ep_setBalances, applySplits_sum_ep _ _ _ _ h5, applyReimbs_sum_ep _ _ _ h4,
    applyExpenses_sum_ep _ _ _ h3 (keys_initMembers_nodup tm), sum_ep_initMembers]
  rw [List.filter_congr (fun e _ => paidByIn_keys_initMembers tm e)]
  simp

theorem calc_sum_rb {pn : String} {ex : List ExpenseRec} {rs : List ReimbRec}
    {sp : List SplitRec} {b : ℚ} {tm : List String} {r : FinanceSummary}
    (h : calculate_project_finances pn ex rs sp b tm = .ok r) :
    (r.member_data.map (fun p => p.2.reimbursed)).sum =
      (((rs.filter (fun x => x.project = some pn)).filter (sentToIn tm)).map
        (fun x => amountOf x.amount)).sum := by
  obtain ⟨te, tr, d1, d2, d3, h1, h2, h3, h4, h5, hr⟩ := calc_ok_elim h
  subst hr
  show ((setBalances d3).map (fun p => p.2.reimbursed)).sum = _
  have hk1 : keys d1 = keys (initMembers tm) := applyExpenses_keys _ _ _ h3
  rw [sum_rb_setBalances, applySplits_sum_rb _ _ _ _ h5,
    applyReimbs_sum_rb _ _ _ h4 (by rw [hk1]; exact keys_initMembers_nodup tm),
    applyExpenses_sum_rb _ _ _ h3, sum_rb_initMembers, hk1]
  rw [List.filter_congr (fun x _ => sentToIn_keys_initMembers tm x)]
  simp


/-! Remaining helpers: the winning split row is the last matching row,
loops split over list append, and a run succeeds exactly when every
filtered amount parses. -/

theorem lastPct_eq (k : String) (ss : List SplitRec) :
    lastPct k ss = ((ss.filter (fun s => s.member = some k)).getLast?).map
      (fun s => amountOf s.percentage) := by
  induction ss with
  | nil => rfl
  | cons s rest ih =>
    rw [lastPct, ih]
    by_cases h : s.member = some k
    · rw [List.filter_cons_of_pos (by simpa using h)]
      cases hf : rest.filter (fun s => decide (s.member = some k)) with
      | nil => simp [hf, h]
      | cons y ys =>
        rw [List.getLast?_cons_cons]
        have hsome : ((y :: ys).getLast?).isSome := by
          rw [List.getLast?_isSome]
          simp
        cases hgl : (y :: ys).getLast? with
        | none => rw [hgl] at hsome; cases hsome
        | some z => simp [hgl]
    · rw [List.filter_cons_of_neg (by simpa using h)]
      cases hgl : (rest.filter (fun s => decide (s.member = some k))).getLast? with
      | none => simp [hgl, h]
      | some z => simp [hgl]

theorem applyExpenses_append (l₁ l₂ : List ExpenseRec) :
    ∀ d, applyExpenses (l₁ ++ l₂) d = applyExpenses l₁ d >>= applyExpenses l₂ := by
  induction l₁ with
  | nil => intro d; simp [applyExpenses]
  | cons e rest ih =>
    intro d
    cases ham : getAmount e.amount with
    | error msg => simp [applyExpenses, ham]
    | ok q => simp [applyExpenses, ham, ih]

theorem applyReimbs_append (l₁ l₂ : List ReimbRec) :
    ∀ d, applyReimbs (l₁ ++ l₂) d = applyReimbs l₁ d >>= applyReimbs l₂ := by
  induction l₁ with
  | nil => intro d; simp [applyReimbs]
  | cons x rest ih =>
    intro d
    cases ham : getAmount x.amount with
    | error msg => simp [applyReimbs, ham]
    | ok q => simp [applyReimbs, ham, ih]

theorem applySplits_append (profit : ℚ) (l₁ l₂ : List SplitRec) :
    ∀ d, applySplits profit (l₁ ++ l₂) d =
      applySplits profit l₁ d >>= applySplits profit l₂ := by
  induction l₁ with
  | nil => intro d; simp [applySplits]
  | cons x rest ih =>
    intro d
    cases ham : getAmount x.percentage with
    | error msg => simp [applySplits, ham]
    | ok q => simp [applySplits, ham, ih]

theorem calc_ok_of_good {pn : String} {ex : List ExpenseRec} {rs : List ReimbRec}
    {sp : List SplitRec} (b : ℚ) (tm : List String)
    (hex : ∀ e ∈ ex.filter (fun e => e.project = some pn), badAmount e.amount = false)
    (hrs : ∀ x ∈ rs.filter (fun x => x.project = some pn), badAmount x.amount = false)
    (hsp : ∀ s ∈ sp.filter (fun s => s.project = some pn), badAmount s.percentage = false) :
    ∃ r, calculate_project_finances pn ex rs sp b tm = .ok r := by
  have h1 := sumAmounts_ok_of_good
    ((ex.filter (fun e => e.project = some pn)).map (fun e => e.amount)) 0
    (fun a ha => by obtain ⟨e, he, rfl⟩ := List.mem_map.mp ha; exact hex e he)
  have h2 := sumAmounts_ok_of_good
    ((rs.filter (fun x => x.project = some pn)).map (fun x => x.amount)) 0
    (fun a ha => by obtain ⟨x, hx, rfl⟩ := List.mem_map.mp ha; exact hrs x hx)
  obtain ⟨d1, hd1⟩ := applyExpenses_ok_of_good _ (initMembers tm) hex
  obtain ⟨d2, hd2⟩ := applyReimbs_ok_of_good _ d1 hrs
  obtain ⟨d3, hd3⟩ := applySplits_ok_of_good
    (b - (0 + (((ex.filter (fun e => e.project = some pn)).map
      (fun e => e.amount)).map amountOf).sum)) _ d2 hsp
  have hrun : calculate_project_finances pn ex rs sp b tm = .ok
      { total_expenses :=
          0 + (((ex.filter (fun e => e.project = some pn)).map
            (fun e => e.amount)).map amountOf).sum
        total_reimbursed :=
          0 + (((rs.filter (fun x => x.project = some pn)).map
            (fun x => x.amount)).map amountOf).sum
        profit := b - (0 + (((ex.filter (fun e => e.project = some pn)).map
            (fun e => e.amount)).map amountOf).sum)
        member_data := setBalances d3 } := by
    simp only [calculate_project_finances]
    rw [h1]
    simp only [except_bind_ok]
    rw [h2]
    simp only [except_bind_ok]
    rw [hd1]
    simp only [except_bind_ok]
    rw [hd2]
    simp only [except_bind_ok]
    rw [hd3]
    simp only [except_bind_ok, except_pure]
  exact ⟨_, hrun⟩

theorem calc_goods {pn : String} {ex : List ExpenseRec} {rs : List ReimbRec}
    {sp : List SplitRec} {b : ℚ} {tm : List String} {r : FinanceSummary}
    (h : calculate_project_finances pn ex rs sp b tm = .ok r) :
    (∀ e ∈ ex.filter (fun e => e.project = some pn), badAmount e.amount = false) ∧
    (∀ x ∈ rs.filter (fun x => x.project = some pn), badAmount x.amount = false) ∧
    (∀ s ∈ sp.filter (fun s => s.project = some pn), badAmount s.percentage = false) := by
  obtain ⟨te, tr, d1, d2, d3, h1, h2, h3, h4, h5, hr⟩ := calc_ok_elim h
  refine ⟨?_, ?_, applySplits_good_of_ok h5⟩
  · intro e he
    exact sumAmounts_good_of_ok h1 e.amount (List.mem_map.mpr ⟨e, he, rfl⟩)
  · intro x hx
    exact sumAmounts_good_of_ok h2 x.amount (List.mem_map.mpr ⟨x, hx, rfl⟩)

theorem expSum_append (k : String) (l₁ l₂ : List ExpenseRec) :
    expSum k (l₁ ++ l₂) = expSum k l₁ + expSum k l₂ := by
  simp [expSum, List.filter_append]

theorem reimbSum_append (k : String) (l₁ l₂ : List ReimbRec) :
    reimbSum k (l₁ ++ l₂) = reimbSum k l₁ + reimbSum k l₂ := by
  simp [reimbSum, List.filter_append]

theorem lastPct_append (k : String) (l₁ l₂ : List SplitRec) :
    lastPct k (l₁ ++ l₂) =
      match lastPct k l₂ with
      | some q => some q
      | none => lastPct k l₁ := by
  induction l₁ with
  | nil => cases hl : lastPct k l₂ <;> simp [lastPct, hl]
  | cons s rest ih =>
    rw [List.cons_append, lastPct, ih, lastPct]
    cases hl : lastPct k l₂ with
    | some q => rfl
    | none => rfl

theorem sum_map_filter_split {α : Type} (p : α → Bool) (f : α → ℚ) (l : List α) :
    ((l.filter p).map f).sum + ((l.filter (fun x => !(p x))).map f).sum =
      (l.map f).sum := by
  induction l with
  | nil => simp
  | cons x rest ih =>
    by_cases h : p x = true
    · rw [List.filter_cons_of_pos h, List.filter_cons_of_neg (by simp [h])]
      simp only [List.map_cons, List.sum_cons]
      rw [← ih]
      ring
    · have h' : p x = false := by simpa using h
      rw [List.filter_cons_of_neg (by simp [h']), List.filter_cons_of_pos (by simp [h'])]
      simp only [List.map_cons, List.sum_cons]
      rw [← ih]
      ring



theorem initMembers_eq_map {tm : List String} (hnd : tm.Nodup) :
    initMembers tm = tm.map (fun m => (m, zeroAccount)) := by
  have aux : ∀ (l : List String) (d : MemberDict), l.Nodup → (∀ m ∈ l, m ∉ keys d) →
      l.foldl (fun d m => dinsert m zeroAccount d) d =
        d ++ l.map (fun m => (m, zeroAccount)) := by
    intro l
    induction l with
    | nil => intro d _ _; simp
    | cons m rest ih =>
      intro d hndl hdisj
      simp only [List.foldl_cons]
      have hm : m ∉ keys d := hdisj m (by simp)
      have hins : dinsert m zeroAccount d = d ++ [(m, zeroAccount)] := by
        unfold dinsert
        rw [if_neg]
        intro hc
        exact hm ((hasKey_some_iff m d).mp hc)
      rw [hins, ih _ (List.nodup_cons.mp hndl).2]
      · simp
      · intro k hk
        rw [keys_append]
        simp only [List.mem_append]
        rintro (hkd | hkm)
        · exact hdisj k (by simp [hk]) hkd
        · simp only [keys_cons, keys_nil, List.mem_singleton] at hkm
          exact (List.nodup_cons.mp hndl).1 (hkm ▸ hk)
  rw [initMembers, aux tm [] hnd (by simp)]
  simp

/-- The run of the engine on the sample ledger: exactly the worked
scenario of the specification. -/
theorem sample_run :
    calculate_project_finances "P" sampleExpenses sampleReimbs sampleSplits
      10000 ["A", "B"] = .ok sampleResult := by
  simp [calculate_project_finances, sampleExpenses, sampleReimbs, sampleSplits,
    sampleResult, sumAmounts, getAmount, pyFloat, applyExpenses, applyReimbs,
    applySplits, setBalances, initMembers, dinsert, dupdate, hasKey, zeroAccount,
    List.any]
  norm_num



/-! The claims. -/

/-- C1: for every input on which calculate_project_finances returns, every
member account in the returned mapping satisfies
balance = profit_share + (expenses_paid - money_received). -/
theorem claim1_balance_invariant {pn : String} {ex : List ExpenseRec}
    {rs : List ReimbRec} {sp : List SplitRec} {b : ℚ} {tm : List String}
    {r : FinanceSummary}
    (h : calculate_project_finances pn ex rs sp b tm = .ok r) :
    ∀ p ∈ r.member_data,
      p.2.balance = p.2.profit_share + (p.2.expenses_paid - p.2.reimbursed) := by
  obtain ⟨te, tr, d1, d2, d3, h1, h2, h3, h4, h5, hr⟩ := calc_ok_elim h
  subst hr
  intro p hp
  simp only [setBalances] at hp
  obtain ⟨q, hq, rfl⟩ := List.mem_map.mp hp
  rfl

/-- Witness for C1 at the account of A in the sample ledger. -/
theorem claim1_witness :
    (("A", (⟨2000, 1000, 4000, 50, 5000⟩ : MemberAccount)) :
        String × MemberAccount).2.balance =
      (("A", (⟨2000, 1000, 4000, 50, 5000⟩ : MemberAccount)) :
        String × MemberAccount).2.profit_share +
      ((("A", (⟨2000, 1000, 4000, 50, 5000⟩ : MemberAccount)) :
        String × MemberAccount).2.expenses_paid -
       (("A", (⟨2000, 1000, 4000, 50, 5000⟩ : MemberAccount)) :
        String × MemberAccount).2.reimbursed) :=
  claim1_balance_invariant sample_run ("A", ⟨2000, 1000, 4000, 50, 5000⟩)
    (by simp [sampleResult])

/-- C2: the returned profit equals budget minus totalExpenses, where
totalExpenses is the sum of the filtered expense amounts, and the profit
is unchanged between two returning runs that differ only in the transfers
and splits collections. -/
theorem claim2_profit_formula {pn : String} {ex : List ExpenseRec}
    {rs : List ReimbRec} {sp : List SplitRec} {b : ℚ} {tm : List String}
    {r : FinanceSummary}
    (h : calculate_project_finances pn ex rs sp b tm = .ok r) :
    r.profit = b - r.total_expenses ∧
    r.total_expenses = (((ex.filter (fun e => e.project = some pn)).map
      (fun e => e.amount)).map amountOf).sum ∧
    (∀ rs' sp' r', calculate_project_finances pn ex rs' sp' b tm = .ok r' →
      r'.profit = r.profit) := by
  obtain ⟨te, tr, d1, d2, d3, h1, h2, h3, h4, h5, hr⟩ := calc_ok_elim h
  subst hr
  refine ⟨rfl, ?_, ?_⟩
  · simpa using sumAmounts_ok _ _ _ h1
  · intro rs2 sp2 r2 h2run
    obtain ⟨te2, tr2, e1, e2, e3, g1, g2, g3, g4, g5, hr2⟩ := calc_ok_elim h2run
    subst hr2
    show b - te2 = b - te
    rw [h1] at g1
    cases g1
    rfl

/-- Witness for C2 at the sample ledger, with the second run using no
transfers and no splits. -/
theorem claim2_witness :
    sampleResult.profit = 10000 - sampleResult.total_expenses ∧
    sampleResult.total_expenses =
      (((sampleExpenses.filter (fun e => e.project = some "P")).map
        (fun e => e.amount)).map amountOf).sum ∧
    sampleNoReimb.profit = sampleResult.profit :=
  ⟨(claim2_profit_formula sample_run).1, (claim2_profit_formula sample_run).2.1,
   (claim2_profit_formula sample_run).2.2 [] [] sampleNoReimb
     (by
       simp [calculate_project_finances, sampleExpenses, sampleNoReimb,
         sumAmounts, getAmount, pyFloat, applyExpenses, applyReimbs, applySplits,
         setBalances, initMembers, dinsert, dupdate, hasKey, zeroAccount, List.any]
       norm_num)⟩

/-- C9: on every returning run, the key set of the returned accounts
mapping is without duplicates and contains exactly the names in
teamMembers, whatever the expense, transfer and split records are. -/
theorem claim9_account_keys {pn : String} {ex : List ExpenseRec}
    {rs : List ReimbRec} {sp : List SplitRec} {b : ℚ} {tm : List String}
    {r : FinanceSummary}
    (h : calculate_project_finances pn ex rs sp b tm = .ok r) :
    (keys r.member_data).Nodup ∧ ∀ k, k ∈ keys r.member_data ↔ k ∈ tm := by
  rw [calc_keys h]
  exact ⟨keys_initMembers_nodup tm, fun k => mem_keys_initMembers k tm⟩

/-- Witness for C9 at the sample ledger, instantiated at the name A. -/
theorem claim9_witness :
    (keys sampleResult.member_data).Nodup ∧
    ("A" ∈ keys sampleResult.member_data ↔ "A" ∈ ["A", "B"]) :=
  ⟨(claim9_account_keys sample_run).1, (claim9_account_keys sample_run).2 "A"⟩



/-- C4: when no expense, transfer or split record matches the project
name, the engine returns (also for negative budgets, hence negative
profit) one all-zero account per team member and profit equals the
budget. -/
theorem claim4_no_activity {pn : String} {ex : List ExpenseRec} {rs : List ReimbRec}
    {sp : List SplitRec} {b : ℚ} {tm : List String}
    (hex : ∀ e ∈ ex, e.project ≠ some pn) (hrs : ∀ x ∈ rs, x.project ≠ some pn)
    (hsp : ∀ s ∈ sp, s.project ≠ some pn) (hnd : tm.Nodup) :
    calculate_project_finances pn ex rs sp b tm =
      .ok { total_expenses := 0, total_reimbursed := 0, profit := b,
            member_data := tm.map (fun m => (m, zeroAccount)) } := by
  have hfe : ex.filter (fun e => e.project = some pn) = [] :=
    List.filter_eq_nil_iff.mpr (fun e he => by simpa using hex e he)
  have hfr : rs.filter (fun x => x.project = some pn) = [] :=
    List.filter_eq_nil_iff.mpr (fun x hx => by simpa using hrs x hx)
  have hfs : sp.filter (fun x => x.project = some pn) = [] :=
    List.filter_eq_nil_iff.mpr (fun x hx => by simpa using hsp x hx)
  simp only [calculate_project_finances, hfe, hfr, hfs]
  simp [sumAmounts, applyExpenses, applyReimbs, applySplits,
    initMembers_eq_map hnd, setBalances, List.map_map, zeroAccount]

/-- Witness for C4: a project with no matching records and a negative
budget. -/
theorem claim4_witness :
    calculate_project_finances "Q" sampleExpenses sampleReimbs sampleSplits
      (-5) ["A", "B"] =
      .ok { total_expenses := 0, total_reimbursed := 0, profit := -5,
            member_data := ["A", "B"].map (fun m => (m, zeroAccount)) } :=
  claim4_no_activity (by decide) (by decide) (by decide) (by decide)

/-- C5: when the filtered splits contain several rows for the same
project and member and that member is on the roster, the last row in
iteration order alone determines profit_percentage and profit_share
(overwrite, not accumulate). -/
theorem claim5_last_write_wins {pn : String} {ex : List ExpenseRec}
    {rs : List ReimbRec} {sp : List SplitRec} {b : ℚ} {tm : List String}
    {r : FinanceSummary} {m : String} {s : SplitRec} {q : ℚ} {acc : MemberAccount}
    (h : calculate_project_finances pn ex rs sp b tm = .ok r)
    (hlast : ((sp.filter (fun s => s.project = some pn)).filter
      (fun s => s.member = some m)).getLast? = some s)
    (hq : getAmount s.percentage = .ok q)
    (hacc : dlookup m r.member_data = some acc) :
    acc.profit_percentage = q ∧ acc.profit_share = (q / 100) * r.profit := by
  have hd := calc_dlookup h m
  rw [hacc] at hd
  by_cases hm : m ∈ tm
  · rw [if_pos hm] at hd
    have heq := Option.some.inj hd
    have hlp : lastPct m (sp.filter (fun s => s.project = some pn)) = some q := by
      rw [lastPct_eq]
      rw [show (sp.filter (fun s => s.project = some pn)).filter
        (fun s => decide (s.member = some m)) = (sp.filter
          (fun s => s.project = some pn)).filter (fun s => s.member = some m) from rfl]
      rw [hlast]
      simp [amountOf_of_ok hq]
    rw [heq]
    unfold accountFor
    rw [hlp]
    simp [applyLast]
  · rw [if_neg hm] at hd
    cases hd

/-- Witness for C5: the literal test of the claim, splits 30 then 45 for
the same member A yield profit_percentage 45 and profit_share 45. -/
theorem claim5_witness :
    (⟨0, 0, 45, 45, 45⟩ : MemberAccount).profit_percentage = 45 ∧
    (⟨0, 0, 45, 45, 45⟩ : MemberAccount).profit_share =
      ((45 : ℚ) / 100) *
        ({ total_expenses := 0, total_reimbursed := 0, profit := 100,
           member_data := [("A", ⟨0, 0, 45, 45, 45⟩)] } : FinanceSummary).profit :=
  @claim5_last_write_wins "P" [] []
    [⟨some "P", some "A", some (.num 30)⟩, ⟨some "P", some "A", some (.num 45)⟩]
    100 ["A"]
    { total_expenses := 0, total_reimbursed := 0, profit := 100
      member_data := [("A", ⟨0, 0, 45, 45, 45⟩)] }
    "A" ⟨some "P", some "A", some (.num 45)⟩ 45 ⟨0, 0, 45, 45, 45⟩
    (by simp [calculate_project_finances, sumAmounts, getAmount, pyFloat,
        applyExpenses, applyReimbs, applySplits, setBalances, initMembers,
        dinsert, dupdate, hasKey, zeroAccount, List.any])
    (by rfl) (by rfl) (by rfl)



/-- C3 counterexample: an expense paid by X, outside the roster [A], is
counted in total_expenses but in no account, so the sum of expenses_paid
over the accounts is not totalExpenses. -/
theorem claim3_counterexample :
    calculate_project_finances "P" [strayExpense] [] [] 0 ["A"] = .ok strayResult ∧
    (strayResult.member_data.map (fun p => p.2.expenses_paid)).sum ≠
      strayResult.total_expenses := by
  constructor
  · simp [calculate_project_finances, strayExpense, strayResult, sumAmounts,
      getAmount, pyFloat, applyExpenses, applyReimbs, applySplits, setBalances,
      initMembers, dinsert, dupdate, hasKey, zeroAccount, List.any]
  · simp [strayResult, zeroAccount]

/-- C3 amended: on every returning run, the sum of expenses_paid over the
accounts equals the subtotal of filtered expenses whose payer is in
teamMembers; it equals totalExpenses when every filtered expense is paid
by a roster member. -/
theorem claim3_amended {pn : String} {ex : List ExpenseRec} {rs : List ReimbRec}
    {sp : List SplitRec} {b : ℚ} {tm : List String} {r : FinanceSummary}
    (h : calculate_project_finances pn ex rs sp b tm = .ok r) :
    (r.member_data.map (fun p => p.2.expenses_paid)).sum =
      (((ex.filter (fun e => e.project = some pn)).filter (paidByIn tm)).map
        (fun e => amountOf e.amount)).sum ∧
    ((∀ e ∈ ex.filter (fun e => e.project = some pn), paidByIn tm e = true) →
      (r.member_data.map (fun p => p.2.expenses_paid)).sum = r.total_expenses) := by
  have hsum := calc_sum_ep h
  refine ⟨hsum, ?_⟩
  intro hall
  rw [hsum, List.filter_eq_self.mpr hall]
  obtain ⟨te, tr, d1, d2, d3, h1, h2, h3, h4, h5, hr⟩ := calc_ok_elim h
  subst hr
  show _ = te
  rw [sumAmounts_ok _ _ _ h1]
  simp [List.map_map, Function.comp_def]

/-- Witness for the amended C3 at the sample ledger, where every filtered
expense is paid by a roster member. -/
theorem claim3_witness :
    (sampleResult.member_data.map (fun p => p.2.expenses_paid)).sum =
      (((sampleExpenses.filter (fun e => e.project = some "P")).filter
        (paidByIn ["A", "B"])).map (fun e => amountOf e.amount)).sum ∧
    (sampleResult.member_data.map (fun p => p.2.expenses_paid)).sum =
      sampleResult.total_expenses :=
  ⟨(claim3_amended sample_run).1, (claim3_amended sample_run).2 (by decide)⟩

/-- C10 counterexample: two cancelling transfers to the non-roster
recipient X: a matching transfer with non-zero amount names a non-roster
recipient, yet total_reimbursed and the accounts' money_received sum are
equal. -/
theorem claim10_counterexample :
    calculate_project_finances "P" [] [strayTransfer, strayTransferNeg] [] 0 ["A"] =
      .ok cancelResult ∧
    (strayTransfer ∈ ([strayTransfer, strayTransferNeg].filter
      (fun x => x.project = some "P")) ∧
      sentToIn ["A"] strayTransfer = false ∧ amountOf strayTransfer.amount ≠ 0) ∧
    (cancelResult.member_data.map (fun p => p.2.reimbursed)).sum =
      cancelResult.total_reimbursed := by
  refine ⟨?_, ⟨?_, ?_, ?_⟩, ?_⟩
  · simp [calculate_project_finances, strayTransfer, strayTransferNeg, cancelResult,
      sumAmounts, getAmount, pyFloat, applyExpenses, applyReimbs, applySplits,
      setBalances, initMembers, dinsert, dupdate, hasKey, zeroAccount, List.any]
  · simp [strayTransfer, strayTransferNeg]
  · simp [sentToIn, strayTransfer]
  · simp [amountOf, strayTransfer]
  · simp [cancelResult, zeroAccount]

/-- C10 amended: total_reimbursed is the sum of all matching transfer
amounts; the accounts' money_received sum only to the subtotal of
matching transfers whose recipient is in teamMembers; the difference is
exactly the subtotal of matching transfers to non-roster recipients, so
the two differ whenever that subtotal is non-zero. -/
theorem claim10_amended {pn : String} {ex : List ExpenseRec} {rs : List ReimbRec}
    {sp : List SplitRec} {b : ℚ} {tm : List String} {r : FinanceSummary}
    (h : calculate_project_finances pn ex rs sp b tm = .ok r) :
    r.total_reimbursed = ((rs.filter (fun x => x.project = some pn)).map
      (fun x => amountOf x.amount)).sum ∧
    (r.member_data.map (fun p => p.2.reimbursed)).sum =
      (((rs.filter (fun x => x.project = some pn)).filter (sentToIn tm)).map
        (fun x => amountOf x.amount)).sum ∧
    r.total_reimbursed - (r.member_data.map (fun p => p.2.reimbursed)).sum =
      (((rs.filter (fun x => x.project = some pn)).filter
        (fun x => !(sentToIn tm x))).map (fun x => amountOf x.amount)).sum := by
  have hsum := calc_sum_rb h
  have htr : r.total_reimbursed = ((rs.filter (fun x => x.project = some pn)).map
      (fun x => amountOf x.amount)).sum := by
    obtain ⟨te, tr, d1, d2, d3, h1, h2, h3, h4, h5, hr⟩ := calc_ok_elim h
    subst hr
    show tr = _
    rw [sumAmounts_ok _ _ _ h2]
    simp [List.map_map, Function.comp_def]
  refine ⟨htr, hsum, ?_⟩
  rw [htr, hsum, ← sum_map_filter_split (sentToIn tm) (fun x => amountOf x.amount)
    (rs.filter (fun x => x.project = some pn))]
  ring

/-- Witness for the amended C10 at a run with a single transfer to the
non-roster recipient X: the two sums differ by 5. -/
theorem claim10_witness :
    strayTransferResult.total_reimbursed =
      (([strayTransfer].filter (fun x => x.project = some "P")).map
        (fun x => amountOf x.amount)).sum ∧
    (strayTransferResult.member_data.map (fun p => p.2.reimbursed)).sum =
      ((([strayTransfer].filter (fun x => x.project = some "P")).filter
        (sentToIn ["A"])).map (fun x => amountOf x.amount)).sum ∧
    strayTransferResult.total_reimbursed -
        (strayTransferResult.member_data.map (fun p => p.2.reimbursed)).sum =
      ((([strayTransfer].filter (fun x => x.project = some "P")).filter
        (fun x => !(sentToIn ["A"] x))).map (fun x => amountOf x.amount)).sum :=
  claim10_amended (show calculate_project_finances "P" [] [strayTransfer] [] 0 ["A"] =
      .ok strayTransferResult by
    simp [calculate_project_finances, strayTransfer, strayTransferResult,
      sumAmounts, getAmount, pyFloat, applyExpenses, applyReimbs, applySplits,
      setBalances, initMembers, dinsert, dupdate, hasKey, zeroAccount, List.any])



/-- C8 counterexample: a matching expense whose amount cell float()
rejects makes calculate_project_finances raise (return an error), instead
of being coerced to zero. -/
theorem claim8_counterexample :
    calculate_project_finances "P" [badExpense] [] [] 0 ["A"] = .error "n/a" := by
  rfl

theorem except_bind_congr {α β : Type} {x : Except String α}
    {f g : α → Except String β} (h : ∀ a, f a = g a) : x >>= f = x >>= g := by
  cases x with
  | error m => rfl
  | ok a => simpa using h a

/-- C8 amended: a record whose amount field is missing is read as zero
and the run proceeds exactly as if the field were 0 (for expenses,
transfers and splits alike); but a matching record whose amount cell
float() rejects makes the whole run raise. -/
theorem claim8_amended {pn : String} :
    (∀ (l₁ l₂ : List ExpenseRec) (e : ExpenseRec) rs sp (b : ℚ) tm,
      calculate_project_finances pn (l₁ ++ { e with amount := none } :: l₂) rs sp b tm =
      calculate_project_finances pn (l₁ ++ { e with amount := some (.num 0) } :: l₂) rs sp b tm) ∧
    (∀ ex (l₁ l₂ : List ReimbRec) (x : ReimbRec) sp (b : ℚ) tm,
      calculate_project_finances pn ex (l₁ ++ { x with amount := none } :: l₂) sp b tm =
      calculate_project_finances pn ex (l₁ ++ { x with amount := some (.num 0) } :: l₂) sp b tm) ∧
    (∀ ex rs (l₁ l₂ : List SplitRec) (s : SplitRec) (b : ℚ) tm,
      calculate_project_finances pn ex rs (l₁ ++ { s with percentage := none } :: l₂) b tm =
      calculate_project_finances pn ex rs (l₁ ++ { s with percentage := some (.num 0) } :: l₂) b tm) ∧
    (∀ (l₁ l₂ : List ExpenseRec) (e : ExpenseRec) msg rs sp (b : ℚ) tm,
      e.project = some pn → e.amount = some (.bad msg) →
      (calculate_project_finances pn (l₁ ++ e :: l₂) rs sp b tm).toOption = none) ∧
    (∀ ex (l₁ l₂ : List ReimbRec) (x : ReimbRec) msg sp (b : ℚ) tm,
      x.project = some pn → x.amount = some (.bad msg) →
      (calculate_project_finances pn ex (l₁ ++ x :: l₂) sp b tm).toOption = none) ∧
    (∀ ex rs (l₁ l₂ : List SplitRec) (s : SplitRec) msg (b : ℚ) tm,
      s.project = some pn → s.percentage = some (.bad msg) →
      (calculate_project_finances pn ex rs (l₁ ++ s :: l₂) b tm).toOption = none) := by
  refine ⟨?_, ?_, ?_, ?_, ?_, ?_⟩
  · intro l₁ l₂ e rs sp b tm
    by_cases hp : e.project = some pn
    · simp only [calculate_project_finances, List.filter_append, List.filter_cons]
      simp only [show ({ e with amount := none } : ExpenseRec).project = e.project from rfl,
        show ({ e with amount := some (.num 0) } : ExpenseRec).project = e.project from rfl,
        hp, decide_True, eq_self_iff_true, if_true]
      rw [List.map_append, List.map_append, List.map_cons, List.map_cons,
        sumAmounts_append, sumAmounts_append,
        applyExpenses_append, applyExpenses_append]
      rfl
    · simp only [calculate_project_finances, List.filter_append, List.filter_cons]
      simp only [show ({ e with amount := none } : ExpenseRec).project = e.project from rfl,
        show ({ e with amount := some (.num 0) } : ExpenseRec).project = e.project from rfl,
        hp]
      rfl
  · intro ex l₁ l₂ x sp b tm
    by_cases hp : x.project = some pn
    · simp only [calculate_project_finances, List.filter_append]
      rw [List.filter_cons_of_pos (by simp [hp]), List.filter_cons_of_pos (by simp [hp])]
      have hsum : sumAmounts (List.map (fun r => r.amount)
            (l₁.filter (fun r => r.project = some pn) ++
              ({ x with amount := none } : ReimbRec) ::
                l₂.filter (fun r => r.project = some pn))) 0 =
          sumAmounts (List.map (fun r => r.amount)
            (l₁.filter (fun r => r.project = some pn) ++
              ({ x with amount := some (.num 0) } : ReimbRec) ::
                l₂.filter (fun r => r.project = some pn))) 0 := by
        rw [List.map_append, List.map_cons, List.map_append, List.map_cons,
          sumAmounts_append, sumAmounts_append]
        rfl
      apply except_bind_congr
      intro total_expenses
      rw [hsum]
      apply except_bind_congr
      intro total_reimbursed
      apply except_bind_congr
      intro d1
      congr 1
      rw [applyReimbs_append, applyReimbs_append]
      exact except_bind_congr fun d => rfl
    · simp only [calculate_project_finances, List.filter_append, List.filter_cons]
      simp only [show ({ x with amount := none } : ReimbRec).project = x.project from rfl,
        show ({ x with amount := some (.num 0) } : ReimbRec).project = x.project from rfl,
        hp]
      rfl
  · intro ex rs l₁ l₂ s b tm
    by_cases hp : s.project = some pn
    · simp only [calculate_project_finances, List.filter_append]
      rw [List.filter_cons_of_pos (by simp [hp]), List.filter_cons_of_pos (by simp [hp])]
      apply except_bind_congr
      intro total_expenses
      apply except_bind_congr
      intro total_reimbursed
      apply except_bind_congr
      intro d1
      apply except_bind_congr
      intro d2
      congr 1
      rw [applySplits_append, applySplits_append]
      exact except_bind_congr fun d => rfl
    · simp only [calculate_project_finances, List.filter_append, List.filter_cons]
      simp only [show ({ s with percentage := none } : SplitRec).project = s.project from rfl,
        show ({ s with percentage := some (.num 0) } : SplitRec).project = s.project from rfl,
        hp]
      rfl
  · intro l₁ l₂ e msg rs sp b tm hp ha
    cases hres : calculate_project_finances pn (l₁ ++ e :: l₂) rs sp b tm with
    | error m => rfl
    | ok r =>
      exfalso
      have hgood := (calc_goods hres).1 e (by
        rw [List.mem_filter]
        exact ⟨by simp, by simp [hp]⟩)
      rw [ha] at hgood
      cases hgood
  · intro ex l₁ l₂ x msg sp b tm hp ha
    cases hres : calculate_project_finances pn ex (l₁ ++ x :: l₂) sp b tm with
    | error m => rfl
    | ok r =>
      exfalso
      have hgood := (calc_goods hres).2.1 x (by
        rw [List.mem_filter]
        exact ⟨by simp, by simp [hp]⟩)
      rw [ha] at hgood
      cases hgood
  · intro ex rs l₁ l₂ s msg b tm hp ha
    cases hres : calculate_project_finances pn ex rs (l₁ ++ s :: l₂) b tm with
    | error m => rfl
    | ok r =>
      exfalso
      have hgood := (calc_goods hres).2.2 s (by
        rw [List.mem_filter]
        exact ⟨by simp, by simp [hp]⟩)
      rw [ha] at hgood
      cases hgood



theorem accountFor_ep (profit : ℚ) (pe : List ExpenseRec) (pr : List ReimbRec)
    (ps : List SplitRec) (k : String) :
    (accountFor profit pe pr ps k).expenses_paid = expSum k pe := by
  unfold accountFor
  cases hl : lastPct k ps <;> simp [applyLast]

theorem accountFor_rb (profit : ℚ) (pe : List ExpenseRec) (pr : List ReimbRec)
    (ps : List SplitRec) (k : String) :
    (accountFor profit pe pr ps k).reimbursed = reimbSum k pr := by
  unfold accountFor
  cases hl : lastPct k ps <;> simp [applyLast]

theorem accountFor_congr {p₁ p₂ : ℚ} {pe pe' : List ExpenseRec}
    {pr pr' : List ReimbRec} {ps ps' : List SplitRec} {k : String}
    (h0 : p₁ = p₂) (h1 : expSum k pe = expSum k pe')
    (h2 : reimbSum k pr = reimbSum k pr') (h3 : lastPct k ps = lastPct k ps') :
    accountFor p₁ pe pr ps k = accountFor p₂ pe' pr' ps' k := by
  unfold accountFor
  rw [h0, h1, h2, h3]

/-- C7 counterexample: a filtered expense paid by the outsider X does
change an account: it lowers the profit, and with a 100 percent split for
A it changes the profit_share and balance of A. -/
theorem claim7_counterexample :
    calculate_project_finances "P" [strayExpense] [] [straySplit] 100 ["A"] =
      .ok strayRunWith ∧
    calculate_project_finances "P" [] [] [straySplit] 100 ["A"] =
      .ok strayRunWithout ∧
    strayExpense.project = some "P" ∧
    paidByIn ["A"] strayExpense = false ∧
    dlookup "A" strayRunWith.member_data ≠ dlookup "A" strayRunWithout.member_data := by
  refine ⟨?_, ?_, rfl, ?_, ?_⟩
  · simp [calculate_project_finances, strayExpense, straySplit, strayRunWith,
      sumAmounts, getAmount, pyFloat, applyExpenses, applyReimbs, applySplits,
      setBalances, initMembers, dinsert, dupdate, hasKey, zeroAccount, List.any]
    norm_num
  · simp [calculate_project_finances, straySplit, strayRunWithout,
      sumAmounts, getAmount, pyFloat, applyExpenses, applyReimbs, applySplits,
      setBalances, initMembers, dinsert, dupdate, hasKey, zeroAccount, List.any]
  · simp [paidByIn, strayExpense]
  · simp [strayRunWith, strayRunWithout, dlookup]

/-- C7 amended: a filtered expense paid outside the roster and a filtered
transfer received outside the roster add to no account (expenses_paid and
money_received are as if the record were absent), and the engine never
creates an account outside teamMembers; dropping such a transfer leaves
every account unchanged, while dropping such an expense can still change
profit_share and balance through the profit. -/
theorem claim7_amended (pn : String) (tm : List String) :
    (∀ (ex : List ExpenseRec) rs sp (b : ℚ) r,
      calculate_project_finances pn ex rs sp b tm = .ok r →
      ∀ k ∈ keys r.member_data, k ∈ tm) ∧
    (∀ (l₁ l₂ : List ExpenseRec) (e : ExpenseRec) rs sp (b : ℚ) r₁ r₂,
      e.project = some pn → paidByIn tm e = false →
      calculate_project_finances pn (l₁ ++ e :: l₂) rs sp b tm = .ok r₁ →
      calculate_project_finances pn (l₁ ++ l₂) rs sp b tm = .ok r₂ →
      ∀ k, (dlookup k r₁.member_data).map (fun a => (a.expenses_paid, a.reimbursed)) =
        (dlookup k r₂.member_data).map (fun a => (a.expenses_paid, a.reimbursed))) ∧
    (∀ ex (l₁ l₂ : List ReimbRec) (t : ReimbRec) sp (b : ℚ) r₁ r₂,
      t.project = some pn → sentToIn tm t = false →
      calculate_project_finances pn ex (l₁ ++ t :: l₂) sp b tm = .ok r₁ →
      calculate_project_finances pn ex (l₁ ++ l₂) sp b tm = .ok r₂ →
      r₁.total_expenses = r₂.total_expenses ∧ r₁.profit = r₂.profit ∧
      (∀ k, dlookup k r₁.member_data = dlookup k r₂.member_data)) := by
  refine ⟨?_, ?_, ?_⟩
  · intro ex rs sp b r h k hk
    rw [calc_keys h] at hk
    exact (mem_keys_initMembers k tm).mp hk
  · intro l₁ l₂ e rs sp b r₁ r₂ hp hpb h₁ h₂ k
    rw [calc_dlookup h₁ k, calc_dlookup h₂ k]
    by_cases hk : k ∈ tm
    · rw [if_pos hk, if_pos hk]
      have hne : e.paid_by ≠ some k := by
        intro hc
        unfold paidByIn at hpb
        rw [hc] at hpb
        simp at hpb
        exact hpb hk
      simp [accountFor_ep, accountFor_rb]
      rw [List.filter_cons_of_pos (by simp [hp]), expSum_append, expSum_append,
        expSum_cons, if_neg hne]
      ring
    · rw [if_neg hk, if_neg hk]
  · intro ex l₁ l₂ t sp b r₁ r₂ hp hto h₁ h₂
    obtain ⟨te₁, tr₁, d11, d21, d31, a1, a2, a3, a4, a5, hr₁⟩ := calc_ok_elim h₁
    obtain ⟨te₂, tr₂, d12, d22, d32, c1, c2, c3, c4, c5, hr₂⟩ := calc_ok_elim h₂
    rw [a1] at c1
    cases c1
    subst hr₁
    subst hr₂
    refine ⟨rfl, rfl, ?_⟩
    intro k
    rw [calc_dlookup h₁ k, calc_dlookup h₂ k]
    by_cases hk : k ∈ tm
    · rw [if_pos hk, if_pos hk]
      have hne : t.to_person ≠ some k := by
        intro hc
        unfold sentToIn at hto
        rw [hc] at hto
        simp at hto
        exact hto hk
      congr 1
      apply accountFor_congr rfl rfl
      · rw [List.filter_append, List.filter_append,
          List.filter_cons_of_pos (by simp [hp]),
          reimbSum_append, reimbSum_append, reimbSum_cons, if_neg hne]
        ring
      · rfl
    · rw [if_neg hk, if_neg hk]

/-- Witness for the amended C7: dropping the transfer to the outsider X
leaves totals (except total_reimbursed) and every account unchanged. -/
theorem claim7_witness :
    strayTransferResult.total_expenses = cancelResult.total_expenses ∧
    strayTransferResult.profit = cancelResult.profit ∧
    dlookup "A" strayTransferResult.member_data =
      dlookup "A" cancelResult.member_data := by
  have H := (claim7_amended "P" ["A"]).2.2 [] [] [] strayTransfer [] 0
    strayTransferResult cancelResult rfl (by decide)
    (by simp [calculate_project_finances, strayTransfer, strayTransferResult,
      sumAmounts, getAmount, pyFloat, applyExpenses, applyReimbs, applySplits,
      setBalances, initMembers, dinsert, dupdate, hasKey, zeroAccount, List.any])
    (by simp [calculate_project_finances, cancelResult,
      sumAmounts, getAmount, pyFloat, applyExpenses, applyReimbs, applySplits,
      setBalances, initMembers, dinsert, dupdate, hasKey, zeroAccount, List.any])
  exact ⟨H.1, H.2.1, H.2.2 "A"⟩

/-- Witness for the amended C8: a missing amount behaves as zero, and a
non-numeric amount raises. -/
theorem claim8_witness :
    (calculate_project_finances "P"
        ([] ++ { strayExpense with amount := none } :: []) [] [] 0 ["A"] =
      calculate_project_finances "P"
        ([] ++ { strayExpense with amount := some (.num 0) } :: []) [] [] 0 ["A"]) ∧
    (calculate_project_finances "P" ([] ++ badExpense :: []) [] [] 0 ["A"]).toOption =
      none :=
  ⟨claim8_amended.1 [] [] strayExpense [] [] 0 ["A"],
   claim8_amended.2.2.2.1 [] [] badExpense "n/a" [] [] 0 ["A"] rfl rfl⟩



theorem accountFor_snoc_reimb (profit : ℚ) (pe : List ExpenseRec)
    (pr : List ReimbRec) (t : ReimbRec) (ps : List SplitRec) (m : String)
    (hto : t.to_person = some m) :
    accountFor profit pe (pr ++ [t]) ps m =
      { accountFor profit pe pr ps m with
          reimbursed := (accountFor profit pe pr ps m).reimbursed + amountOf t.amount
          balance := (accountFor profit pe pr ps m).balance - amountOf t.amount } := by
  unfold accountFor
  rw [reimbSum_append]
  have h1 : reimbSum m [t] = amountOf t.amount := by
    simp [reimbSum, hto]
  rw [h1]
  cases hl : lastPct m ps
  · simp only [applyLast]
    congr 1
    ring
  · simp only [applyLast]
    congr 1
    ring

/-- C6: appending one transfer from the Client to roster member m keeps
the run returning, and the returned summary adds the amount to the money
received by m alone: all other accounts are untouched, expenses and
profit do not move, and the result does not depend on the source field at
all. -/
theorem claim6_client_transfer {pn : String} {ex : List ExpenseRec}
    {rs : List ReimbRec} {sp : List SplitRec} {b a : ℚ} {tm : List String}
    {r : FinanceSummary} {m : String}
    (h : calculate_project_finances pn ex rs sp b tm = .ok r) (hm : m ∈ tm) :
    (∃ x, calculate_project_finances pn ex
      (rs ++ [⟨some pn, some "Client", some m, some (.num a)⟩]) sp b tm = .ok x) ∧
    ∀ r', calculate_project_finances pn ex
        (rs ++ [⟨some pn, some "Client", some m, some (.num a)⟩]) sp b tm = .ok r' →
      (∀ src, calculate_project_finances pn ex
        (rs ++ [⟨some pn, src, some m, some (.num a)⟩]) sp b tm = .ok r') ∧
      r'.total_expenses = r.total_expenses ∧
      r'.profit = r.profit ∧
      r'.total_reimbursed = r.total_reimbursed + a ∧
      (∀ k, k ≠ m → dlookup k r'.member_data = dlookup k r.member_data) ∧
      dlookup m r'.member_data = (dlookup m r.member_data).map
        (fun acc => { acc with reimbursed := acc.reimbursed + a
                             , balance := acc.balance - a }) := by
  obtain ⟨ge, gr, gs⟩ := calc_goods h
  have grt : ∀ x ∈ (rs ++ [(⟨some pn, some "Client", some m, some (.num a)⟩ : ReimbRec)]).filter
      (fun x => x.project = some pn), badAmount x.amount = false := by
    intro x hx
    rw [List.mem_filter] at hx
    rcases List.mem_append.mp hx.1 with hx2 | hx2
    · exact gr x (List.mem_filter.mpr ⟨hx2, hx.2⟩)
    · rw [List.mem_singleton] at hx2
      subst hx2
      rfl
  have hfil : (rs ++ [(⟨some pn, some "Client", some m, some (.num a)⟩ : ReimbRec)]).filter
      (fun x => x.project = some pn) =
      rs.filter (fun x => x.project = some pn) ++
        [(⟨some pn, some "Client", some m, some (.num a)⟩ : ReimbRec)] := by
    rw [List.filter_append, List.filter_cons_of_pos (by simp)]
    simp
  have hsrc : ∀ src, calculate_project_finances pn ex
      (rs ++ [(⟨some pn, src, some m, some (.num a)⟩ : ReimbRec)]) sp b tm =
      calculate_project_finances pn ex
      (rs ++ [(⟨some pn, some "Client", some m, some (.num a)⟩ : ReimbRec)]) sp b tm := by
    intro src
    simp only [calculate_project_finances, List.filter_append]
    rw [List.filter_cons_of_pos (by simp), List.filter_cons_of_pos (by simp)]
    simp only [List.filter_nil]
    have hmap : List.map (fun x => x.amount)
        (rs.filter (fun x => x.project = some pn) ++
          [(⟨some pn, src, some m, some (.num a)⟩ : ReimbRec)]) =
      List.map (fun x => x.amount)
        (rs.filter (fun x => x.project = some pn) ++
          [(⟨some pn, some "Client", some m, some (.num a)⟩ : ReimbRec)]) := by
      simp
    rw [hmap]
    apply except_bind_congr
    intro total_expenses
    apply except_bind_congr
    intro total_reimbursed
    apply except_bind_congr
    intro d1
    congr 1
    rw [applyReimbs_append, applyReimbs_append]
    exact except_bind_congr fun d => rfl
  refine ⟨calc_ok_of_good b tm ge grt gs, ?_⟩
  intro r' hr'
  obtain ⟨te, tr, d1, d2, d3, h1, h2, h3, h4, h5, hr0⟩ := calc_ok_elim h
  obtain ⟨te2, tr2, e1, e2, e3, g1, g2, g3, g4, g5, hr2⟩ := calc_ok_elim hr'
  rw [h1] at g1
  cases g1
  rw [hfil, List.map_append] at g2
  rw [sumAmounts_append, h2] at g2
  simp only [List.map_cons, List.map_nil] at g2
  have g2v : tr2 = tr + a := by
    have hone : sumAmounts [some (PyVal.num a)] tr = Except.ok (tr + a) := rfl
    rw [hone] at g2
    exact ((Except.ok.injEq _ _).mp g2).symm
  have hdl : ∀ k, dlookup k r'.member_data =
      if k ∈ tm then some (accountFor r'.profit
        (ex.filter (fun e => e.project = some pn))
        (rs.filter (fun x => x.project = some pn) ++
          [(⟨some pn, some "Client", some m, some (.num a)⟩ : ReimbRec)])
        (sp.filter (fun s => s.project = some pn)) k) else none := by
    intro k
    rw [calc_dlookup hr' k, hfil]
  have hprofit : r'.profit = r.profit := by
    rw [hr2, hr0]
  refine ⟨fun src => (hsrc src).trans hr', ?_, hprofit, ?_, ?_, ?_⟩
  · rw [hr2, hr0]
  · rw [hr2, hr0]
    show tr2 = tr + a
    exact g2v
  · intro k hkm
    rw [hdl k, calc_dlookup h k]
    by_cases hk : k ∈ tm
    · rw [if_pos hk, if_pos hk]
      congr 1
      apply accountFor_congr hprofit rfl ?_ rfl
      rw [reimbSum_append, reimbSum_cons]
      have hne : (⟨some pn, some "Client", some m, some (.num a)⟩ : ReimbRec).to_person ≠
          some k := by
        simp
        exact fun hc => hkm hc.symm
      rw [if_neg hne]
      simp [reimbSum]
    · rw [if_neg hk, if_neg hk]
  · rw [hdl m, if_pos hm, calc_dlookup h m, if_pos hm]
    rw [accountFor_snoc_reimb _ _ _ _ _ _ rfl]
    rw [show amountOf ((⟨some pn, some "Client", some m, some (.num a)⟩ :
        ReimbRec).amount) = a from rfl]
    rw [show accountFor (FinanceSummary.profit r')
        (ex.filter (fun e => e.project = some pn))
        (rs.filter (fun x => x.project = some pn))
        (sp.filter (fun s => s.project = some pn)) m =
      accountFor (FinanceSummary.profit r)
        (ex.filter (fun e => e.project = some pn))
        (rs.filter (fun x => x.project = some pn))
        (sp.filter (fun s => s.project = some pn)) m from by rw [hprofit]]
    rfl

/-- Witness for C6 at the sample ledger: a 500 client payment to A. -/
theorem claim6_witness :
    sampleExt.total_expenses = sampleResult.total_expenses ∧
    sampleExt.profit = sampleResult.profit ∧
    sampleExt.total_reimbursed = sampleResult.total_reimbursed + 500 ∧
    dlookup "B" sampleExt.member_data = dlookup "B" sampleResult.member_data ∧
    dlookup "A" sampleExt.member_data = (dlookup "A" sampleResult.member_data).map
      (fun acc => { acc with reimbursed := acc.reimbursed + 500
                           , balance := acc.balance - 500 }) ∧
    calculate_project_finances "P" sampleExpenses
      (sampleReimbs ++ [⟨some "P", some "Essam", some "A", some (.num 500)⟩])
      sampleSplits 10000 ["A", "B"] = .ok sampleExt := by
  have H := (claim6_client_transfer sample_run
      (show "A" ∈ ["A", "B"] by decide)).2 sampleExt
    (show calculate_project_finances "P" sampleExpenses
        (sampleReimbs ++ [⟨some "P", some "Client", some "A", some (.num 500)⟩])
        sampleSplits 10000 ["A", "B"] = .ok sampleExt by
      simp [calculate_project_finances, sampleExpenses, sampleReimbs,
        sampleSplits, sampleExt, sumAmounts, getAmount, pyFloat, applyExpenses,
        applyReimbs, applySplits, setBalances, initMembers, dinsert, dupdate,
        hasKey, zeroAccount, List.any]
      norm_num)
  exact ⟨H.2.1, H.2.2.1, H.2.2.2.1, H.2.2.2.2.1 "B" (by decide), H.2.2.2.2.2,
    H.1 (some "Essam")⟩

end App
